import Mathlib

/-!
Verification of the Prompteka MCP write-path consistency engine
(`src/tools/write-tools.ts`, class `PromptekaDatabaseAccessor`).

The SQLite store is modelled as an in-memory list-backed database:
tables are lists in row (insertion) order, so that `SELECT ... LIMIT 1`
(better-sqlite3 `.get()`) corresponds to `List.find?`, `INSERT` to
appending at the end, and `DELETE ... WHERE` to `List.filter`.
`uuidv4()` is modelled by a fresh-id counter carried in the database
state (uuid collisions are assumed absent), and `new Date().toISOString()`
by an explicit `now : Nat` parameter.  Operations return
`Except MCPError ...`; an `error` result models a thrown
`PromptekaMCPError`, and since every mutation runs inside a single
`db.transaction`, a thrown error rolls the store back — the caller keeps
the pre-call state.  Unbounded loops/recursion in the source are given
an explicit fuel parameter; where the source is claimed to terminate we
prove the fuel is never exhausted.
-/

namespace Prompteka

/-- Error codes from `src/validation/error-taxonomy.ts` (the subset the
write path uses). -/
inductive ErrorCode where
  | INVALID_INPUT
  | FOLDER_NOT_FOUND
  | PROMPT_NOT_FOUND
  | FOLDER_NOT_EMPTY
  | DATABASE_ERROR
  | PERMISSION_DENIED
  | INTERNAL_ERROR
  deriving DecidableEq, Repr

/-- `PromptekaMCPError(code, message)`. -/
structure MCPError where
  code : ErrorCode
  message : String
  deriving DecidableEq, Repr

/-- A row of the `folders` table (columns `id, name, parent_id, emoji,
color, created_at, updated_at`).  Ids are `Nat` (stand-ins for UUID
strings), timestamps are `Nat`. -/
structure Folder where
  id : Nat
  name : String
  parentId : Option Nat
  emoji : Option String
  color : Option String
  createdAt : Nat
  updatedAt : Nat
  deriving DecidableEq, Repr

/-- A row of the `prompts` table. -/
structure Prompt where
  id : Nat
  title : String
  content : String
  folderId : Option Nat
  emoji : Option String
  color : Option String
  url : Option String
  createdAt : Nat
  updatedAt : Nat
  deriving DecidableEq, Repr

/-- The SQLite database: both tables in row order, plus the fresh-id
supply modelling `uuidv4()`. -/
structure DB where
  folders : List Folder
  prompts : List Prompt
  nextId : Nat
  deriving DecidableEq, Repr

/-- `PROMPTEKA_SCHEMA_VERSION` (write-tools.ts line 810). -/
def PROMPTEKA_SCHEMA_VERSION : Nat := 27

/-- Connection state of the accessor (`this.isOpen`). -/
structure ConnState where
  isOpen : Bool
  deriving DecidableEq, Repr

/-- A row object returned by better-sqlite3 `pragma()` when the call
does not pass `{ simple: true }`: such a call yields an *array of row
objects* (for `schema_version`, one row carrying the number), never the
bare number.  The repository's read-only path (database-reader.ts line
178) passes `{ simple: true }` and receives the number; `connect()`
(write-tools.ts line 895) calls it bare. -/
structure PragmaRow where
  schema_version : Nat
  deriving DecidableEq, Repr

/-- `this.db.pragma("schema_version")` at write-tools.ts line 895 (no
`{ simple: true }`): an array with one row object holding the store's
marker. -/
def pragmaSchemaVersion (stored : Nat) : List PragmaRow :=
  [⟨stored⟩]

/-- JavaScript strict comparison (`===` / the `!==` at write-tools.ts
line 896) between an array of row objects and a number: strict equality
never coerces across types, so it is false whatever the row holds. -/
def jsStrictEqRowsNat (_rows : List PragmaRow) (_n : Nat) : Bool :=
  false

/-- `${schemaVersion}` in the template literal at write-tools.ts line
900: a JavaScript array stringifies by joining its elements with
commas, and a plain object stringifies as `[object Object]`. -/
def jsTemplateString (rows : List PragmaRow) : String :=
  String.intercalate "," (rows.map (fun _ => "[object Object]"))

/-- The schema-mismatch error thrown inside `connect()` (write-tools.ts
lines 898-903) and re-wrapped by its `catch` block (lines 911-917),
with the pragma result stringified into the message. -/
def schemaMismatchError (got : String) : MCPError :=
  ⟨ErrorCode.DATABASE_ERROR,
    "Failed to connect to database: Database schema mismatch: expected version "
      ++ toString PROMPTEKA_SCHEMA_VERSION ++ ", got " ++ got
      ++ ". This may indicate an incompatible Prompteka version. Please verify Prompteka is up to date. "
      ++ "Write operations are blocked to prevent data corruption."⟩

/-- `connect()` (write-tools.ts lines 879-919): an already-open handle
returns early; otherwise the accessor reads the `schema_version` pragma
without `{ simple: true }` (line 895) and compares the resulting array
of row objects against the number `PROMPTEKA_SCHEMA_VERSION` with
strict `!==` (line 896); on mismatch it closes the handle and throws,
and the `catch` re-wraps the message. -/
def connect (storedSchemaVersion : Nat) (st : ConnState) :
    Except MCPError ConnState :=
  if st.isOpen then
    .ok st
  else
    let schemaVersion := pragmaSchemaVersion storedSchemaVersion
    if !jsStrictEqRowsNat schemaVersion PROMPTEKA_SCHEMA_VERSION then
      .error (schemaMismatchError (jsTemplateString schemaVersion))
    else
      .ok ⟨true⟩

/-- `folderExists` (lines 997-1002): `SELECT 1 FROM folders WHERE id = ?`. -/
def folderExists (db : DB) (folderId : Nat) : Bool :=
  db.folders.any (fun f => f.id == folderId)

/-- `promptExists` (lines 1007-1012). -/
def promptExists (db : DB) (promptId : Nat) : Bool :=
  db.prompts.any (fun p => p.id == promptId)

/-- `SELECT parent_id FROM folders WHERE id = ?` followed by
`folder?.parent_id || null`: the parent of folder `c`, or `none` when
`c` is not in the table or has no parent. -/
def parentOf (folders : List Folder) (c : Nat) : Option Nat :=
  match folders.find? (fun f => f.id == c) with
  | none => none
  | some f => f.parentId

/-- `findFolderByNameAndParent` (lines 1051-1080):
`SELECT ... WHERE name = ? AND parent_id IS ?`, first row. -/
def findFolderByNameAndParent (db : DB) (name : String) (parentId : Option Nat) :
    Option Folder :=
  db.folders.find? (fun f => f.name == name && f.parentId == parentId)

/-- `findPromptByTitle` (lines 1085-1115): `SELECT ... WHERE title = ?`,
first row. -/
def findPromptByTitle (db : DB) (title : String) : Option Prompt :=
  db.prompts.find? (fun p => p.title == title)

/-! ### Parent chains -/

/-- Follow `parentId` links for at most `fuel` steps; `true` means the
chain reached "no parent" (a root, or an id absent from the table)
within the fuel. -/
def chase (folders : List Folder) : Nat → Option Nat → Bool
  | _, none => true
  | 0, some _ => false
  | n + 1, some c => chase folders n (parentOf folders c)

/-- The parent chain starting at `o` terminates. -/
def Terminates (folders : List Folder) (o : Option Nat) : Prop :=
  ∃ n, chase folders n o = true

/-- The store invariant: from every id, walking `parentId` reaches
"no parent" in finitely many steps (spec §8, first property). -/
def Acyclic (folders : List Folder) : Prop :=
  ∀ c : Nat, Terminates folders (some c)

/-- `x` occurs within the first `fuel` elements of the parent chain
starting at `o` (the start itself included). -/
def onChain (folders : List Folder) : Nat → Option Nat → Nat → Bool
  | _, none, _ => false
  | 0, some _, _ => false
  | n + 1, some c, x => x == c || onChain folders n (parentOf folders c) x

/-- `x` occurs somewhere on the parent chain starting at `o`. -/
def OnChain (folders : List Folder) (o : Option Nat) (x : Nat) : Prop :=
  ∃ n, onChain folders n o x = true

/-! ### Cycle detection (`wouldCreateCycle`, lines 1017-1046)

The source walks parent links from the proposed parent with an explicit
visited set (`while (currentId !== null && !visited.has(currentId))`).
The walk is embedded with a fuel parameter (`none` = fuel exhausted);
`wouldCreateCycle` passes `folders.length + 2` fuel, which is proved
sufficient below (`cycleWalkAux_isSome`). -/

def cycleWalkAux (folders : List Folder) (target : Nat) :
    Nat → Option Nat → List Nat → Option Bool
  | _, none, _ => some false
  | 0, some _, _ => none
  | fuel + 1, some c, visited =>
    if visited.contains c then some false
    else if c == target then some true
    else cycleWalkAux folders target fuel (parentOf folders c) (c :: visited)

/-- `wouldCreateCycle(folderId, potentialParentId)`. -/
def wouldCreateCycle (folders : List Folder) (folderId : Nat) (pp : Option Nat) :
    Option Bool :=
  match pp with
  | none => some false
  | some p =>
    if folderId == p then some true
    else cycleWalkAux folders folderId (folders.length + 2) (some p) []

/-- Boolean view of `wouldCreateCycle` (the source function returns a
plain boolean; fuel exhaustion never occurs, see `wouldCreateCycle_isSome`). -/
def wouldCreateCycleB (folders : List Folder) (folderId : Nat) (pp : Option Nat) :
    Bool :=
  (wouldCreateCycle folders folderId pp).getD false

/-! ### Recursive folder deletion (`recursivelyDeleteFolder`, lines 1139-1155)

The source recurses into each immediate child (found via
`SELECT id FROM folders WHERE parent_id = ?`), then deletes the prompts
of the current folder and the folder row itself.  There is no visited
set; the recursion is embedded with a fuel parameter that decreases by
one per nesting level (`none` = fuel exhausted, i.e. the source would
recurse past that depth). -/

/-- The recursion of the source, as a worklist: `deleteSubtrees db (w :: rest)`
first processes all of `w`'s immediate children (each child's whole
subtree completes before the next, exactly like the source's
`for (const child of children) this.recursivelyDeleteFolder(child.id)`),
then deletes `w`'s prompts (`DELETE FROM prompts WHERE folder_id = ?`)
and `w`'s row, then processes `rest`.  Fuel decreases on every call;
`none` = fuel exhausted, i.e. the source recursion would still be
running at that depth budget. -/
def deleteSubtrees : Nat → DB → List Nat → Option DB
  | _, db, [] => some db
  | 0, _, _ :: _ => none
  | fuel + 1, db, folderId :: rest =>
    match deleteSubtrees fuel db
        ((db.folders.filter (fun f => f.parentId == some folderId)).map Folder.id) with
    | none => none
    | some db1 =>
      deleteSubtrees fuel
        { db1 with
          prompts := db1.prompts.filter (fun p => p.folderId != some folderId),
          folders := db1.folders.filter (fun f => f.id != folderId) }
        rest

/-- `recursivelyDeleteFolder(folderId)` (lines 1139-1155). -/
def recursivelyDeleteFolder (fuel : Nat) (db : DB) (folderId : Nat) : Option DB :=
  deleteSubtrees fuel db [folderId]

/-! ### Prompt CRUD -/

/-- The `data` argument of `createPrompt` (lines 1475-1482). -/
structure PromptData where
  title : String
  content : String
  folderId : Option Nat
  emoji : Option String
  color : Option String
  url : Option String
  deriving DecidableEq, Repr

/-- `createPrompt` (lines 1475-1528): checks the referenced folder
exists (when non-null), then inside one transaction inserts the row with
a fresh id and re-reads it (verify-after-write). -/
def createPrompt (db : DB) (data : PromptData) (now : Nat) :
    Except MCPError (Nat × DB) :=
  if data.folderId.isSome && !(folderExists db (data.folderId.getD 0)) then
    .error ⟨ErrorCode.FOLDER_NOT_FOUND, "Folder does not exist"⟩
  else
    let id := db.nextId
    let p : Prompt :=
      ⟨id, data.title, data.content, data.folderId, data.emoji, data.color,
        data.url, now, now⟩
    let db' : DB :=
      { db with prompts := db.prompts ++ [p], nextId := db.nextId + 1 }
    if promptExists db' id then
      .ok (id, db')
    else
      .error ⟨ErrorCode.DATABASE_ERROR,
        "Failed to verify prompt was created (read-back check failed)"⟩

/-- The `Partial<{...}>` argument of `updatePrompt` (lines 1533-1542):
the outer `Option` is field presence (`"field" in data`), the inner one
is SQL NULL. -/
structure PromptUpdate where
  title : Option String
  content : Option String
  folderId : Option (Option Nat)
  emoji : Option (Option String)
  color : Option (Option String)
  url : Option (Option String)
  deriving DecidableEq, Repr

/-- `updates.length === 0` (line 1593): no field is present. -/
def PromptUpdate.isEmpty (d : PromptUpdate) : Bool :=
  d.title.isNone && d.content.isNone && d.folderId.isNone &&
    d.emoji.isNone && d.color.isNone && d.url.isNone

/-- The `UPDATE prompts SET ...` row transform: each present field is
written (absent inner value as NULL), `updated_at` is set to `now`. -/
def applyPromptUpdate (d : PromptUpdate) (now : Nat) (p : Prompt) : Prompt :=
  { p with
    title := d.title.getD p.title
    content := d.content.getD p.content
    folderId := d.folderId.getD p.folderId
    emoji := d.emoji.getD p.emoji
    color := d.color.getD p.color
    url := d.url.getD p.url
    updatedAt := now }

/-- The prompt rows after `UPDATE prompts SET ... WHERE id = ?`. -/
def updatedPrompts (db : DB) (id : Nat) (d : PromptUpdate) (now : Nat) :
    List Prompt :=
  db.prompts.map (fun p => if p.id == id then applyPromptUpdate d now p else p)

/-- `updatePrompt` (lines 1533-1620): fast-fail existence checks outside
the transaction, then a partial `UPDATE` of exactly the present fields;
an empty change-set returns before touching the row. -/
def updatePrompt (db : DB) (id : Nat) (d : PromptUpdate) (now : Nat) :
    Except MCPError DB :=
  if !promptExists db id then
    .error ⟨ErrorCode.PROMPT_NOT_FOUND, "Prompt does not exist"⟩
  else if (match d.folderId with
           | some (some f) => !folderExists db f
           | _ => false) then
    .error ⟨ErrorCode.FOLDER_NOT_FOUND, "Folder does not exist"⟩
  else if d.isEmpty then
    .ok db
  else
    let db' : DB := { db with prompts := updatedPrompts db id d now }
    if promptExists db' id then
      .ok db'
    else
      .error ⟨ErrorCode.DATABASE_ERROR,
        "Failed to verify prompt was updated (read-back check failed)"⟩

/-! ### Folder update and deletion -/

/-- `getFolder` (lines 2113-2161): `SELECT ... FROM folders WHERE id = ?`. -/
def getFolder (db : DB) (id : Nat) : Option Folder :=
  db.folders.find? (fun f => f.id == id)

/-- The `Partial<{...}>` argument of `updateFolder` (lines 1723-1730). -/
structure FolderUpdate where
  name : Option String
  parentId : Option (Option Nat)
  emoji : Option (Option String)
  color : Option (Option String)
  deriving DecidableEq, Repr

def FolderUpdate.isEmpty (d : FolderUpdate) : Bool :=
  d.name.isNone && d.parentId.isNone && d.emoji.isNone && d.color.isNone

def applyFolderUpdate (d : FolderUpdate) (now : Nat) (f : Folder) : Folder :=
  { f with
    name := d.name.getD f.name
    parentId := d.parentId.getD f.parentId
    emoji := d.emoji.getD f.emoji
    color := d.color.getD f.color
    updatedAt := now }

/-- The folder rows after `UPDATE folders SET ... WHERE id = ?`. -/
def updatedFolders (db : DB) (id : Nat) (d : FolderUpdate) (now : Nat) :
    List Folder :=
  db.folders.map (fun f => if f.id == id then applyFolderUpdate d now f else f)

/-- The transaction body of `updateFolder` (lines 1783-1832). -/
def updateFolderTx (db : DB) (id : Nat) (d : FolderUpdate) (now : Nat) :
    Except MCPError DB :=
  if d.isEmpty then
    .ok db
  else
    if folderExists { db with folders := updatedFolders db id d now } id then
      .ok { db with folders := updatedFolders db id d now }
    else
      .error ⟨ErrorCode.DATABASE_ERROR,
        "Failed to verify folder was updated (read-back check failed)"⟩

/-- `updateFolder` (lines 1723-1833): existence check, parent-existence
check, cycle detection, duplicate sibling-name check (when name or
parent changes), then the partial `UPDATE`. -/
def updateFolder (db : DB) (id : Nat) (d : FolderUpdate) (now : Nat) :
    Except MCPError DB :=
  if !folderExists db id then
    .error ⟨ErrorCode.FOLDER_NOT_FOUND, "Folder does not exist"⟩
  else if (match d.parentId with
           | some (some p) => !folderExists db p
           | _ => false) then
    .error ⟨ErrorCode.FOLDER_NOT_FOUND, "Parent folder does not exist"⟩
  else if (match d.parentId with
           | some pp => wouldCreateCycleB db.folders id pp
           | none => false) then
    .error ⟨ErrorCode.INVALID_INPUT,
      "Cannot move folder - would create a circular hierarchy"⟩
  else if d.name.isSome || d.parentId.isSome then
    match getFolder db id with
    | none => .error ⟨ErrorCode.FOLDER_NOT_FOUND, "Folder not found"⟩
    | some cur =>
      match findFolderByNameAndParent db (d.name.getD cur.name)
          (d.parentId.getD cur.parentId) with
      | some g =>
        if g.id ≠ id then
          .error ⟨ErrorCode.INVALID_INPUT,
            "A folder with that name already exists in that location"⟩
        else updateFolderTx db id d now
      | none => updateFolderTx db id d now
  else
    updateFolderTx db id d now

/-- `deleteFolder` (lines 1838-1894).  The non-recursive path checks the
direct prompt count then the direct subfolder count and throws
`FOLDER_NOT_EMPTY` before any mutation; the recursive path runs
`recursivelyDeleteFolder` (fuel `folders.length + 2`, proved sufficient
on acyclic stores; exhaustion — where the source recursion would not
terminate — is surfaced as a `DATABASE_ERROR`).  Both paths then delete
the folder row and verify it is gone. -/
def deleteFolder (db : DB) (id : Nat) (recursive : Bool) :
    Except MCPError DB :=
  if !folderExists db id then
    .error ⟨ErrorCode.FOLDER_NOT_FOUND, "Folder does not exist"⟩
  else if !recursive then
    if (db.prompts.filter (fun p => p.folderId == some id)).length > 0 then
      .error ⟨ErrorCode.FOLDER_NOT_EMPTY,
        "Folder has prompts. Use recursive=true to delete with contents."⟩
    else if (db.folders.filter (fun f => f.parentId == some id)).length > 0 then
      .error ⟨ErrorCode.FOLDER_NOT_EMPTY,
        "Folder has subfolders. Use recursive=true to delete with contents."⟩
    else
      let db' : DB :=
        { db with folders := db.folders.filter (fun f => f.id != id) }
      if folderExists db' id then
        .error ⟨ErrorCode.DATABASE_ERROR,
          "Failed to verify folder was deleted (read-back check failed)"⟩
      else .ok db'
  else
    match recursivelyDeleteFolder (db.folders.length + 2) db id with
    | none =>
      .error ⟨ErrorCode.DATABASE_ERROR, "recursion depth exhausted"⟩
    | some db1 =>
      let db' : DB :=
        { db1 with folders := db1.folders.filter (fun f => f.id != id) }
      if folderExists db' id then
        .error ⟨ErrorCode.DATABASE_ERROR,
          "Failed to verify folder was deleted (read-back check failed)"⟩
      else .ok db'

/-! ### Backup restore (`restoreBackup`, lines 1950-2108) -/

/-- A folder record of the snapshot (fields `id, name, parent_id, emoji,
color` read off the untyped backup object). -/
structure BackupFolder where
  id : Nat
  name : String
  parent_id : Option Nat
  emoji : Option String
  color : Option String
  deriving DecidableEq, Repr

/-- A prompt record of the snapshot. -/
structure BackupPrompt where
  title : String
  content : String
  folder_id : Option Nat
  emoji : Option String
  color : Option String
  url : Option String
  deriving DecidableEq, Repr

/-- The loop of `getFolderDepth` (lines 1121-1133), walking the parent
chain inside the snapshot set.  The source loop has no visited set and
would spin forever on a cyclic snapshot; fuel exhaustion returns the
depth accumulated so far. -/
def folderDepthGo (allFolders : List BackupFolder) :
    Nat → Option Nat → Nat → Nat
  | _, none, depth => depth
  | 0, some _, depth => depth
  | fuel + 1, some pid, depth =>
    match allFolders.find? (fun g => g.id == pid) with
    | none => depth + 1
    | some parent => folderDepthGo allFolders fuel parent.parent_id (depth + 1)

/-- `getFolderDepth(folder, allFolders)`. -/
def getFolderDepth (allFolders : List BackupFolder) (f : BackupFolder) : Nat :=
  folderDepthGo allFolders (allFolders.length + 1) f.parent_id 0

/-- `folderIdMap.get` on the snapshot-id → live-id map (a JS `Map`,
modelled as an assoc list where `set` conses and `get` takes the most
recent binding). -/
def mapGet (m : List (Nat × Nat)) (k : Nat) : Option Nat :=
  (m.find? (fun e => e.1 == k)).map (fun e => e.2)

/-- The running state of one `restoreBackup` call: the id-remapping
table, the live store, and the created-counters. -/
structure RestoreSt where
  map : List (Nat × Nat)
  db : DB
  importedFolders : Nat
  importedPrompts : Nat
  deriving DecidableEq, Repr

/-- Folder creation inside phase 1 (lines 2008-2035): insert with a
fresh id, verify-after-write, record old-id → new-id, bump the counter. -/
def restoreFolderCreate (now : Nat) (st : RestoreSt) (bf : BackupFolder)
    (mappedParentId : Option Nat) : Except MCPError RestoreSt :=
  let nid := st.db.nextId
  let f : Folder := ⟨nid, bf.name, mappedParentId, bf.emoji, bf.color, now, now⟩
  let db' : DB :=
    { st.db with folders := st.db.folders ++ [f], nextId := st.db.nextId + 1 }
  if !folderExists db' nid then
    .error ⟨ErrorCode.DATABASE_ERROR, "Failed to create folder in backup restore"⟩
  else
    .ok { st with
      db := db'
      map := (bf.id, nid) :: st.map
      importedFolders := st.importedFolders + 1 }

/-- Collision handling for one snapshot folder (lines 1991-2006): on a
live `(name, resolved-parent)` match, either skip (recording the id
mapping) or, with `overwrite`, delete the matched folder's direct
prompts and its row (`DELETE FROM prompts WHERE folder_id = ?`;
`DELETE FROM folders WHERE id = ?`), then create fresh. -/
def restoreFolderStep2 (overwrite : Bool) (now : Nat) (st : RestoreSt)
    (bf : BackupFolder) (mappedParentId : Option Nat) :
    Except MCPError RestoreSt :=
  match findFolderByNameAndParent st.db bf.name mappedParentId with
  | some existing =>
    if !overwrite then
      .ok { st with map := (bf.id, existing.id) :: st.map }
    else
      let db1 : DB :=
        { st.db with
          prompts := st.db.prompts.filter (fun p => p.folderId != some existing.id),
          folders := st.db.folders.filter (fun f => f.id != existing.id) }
      restoreFolderCreate now { st with db := db1 } bf mappedParentId
  | none => restoreFolderCreate now st bf mappedParentId

/-- One iteration of phase 1 (lines 1972-2036): resolve the snapshot
parent through the mapping table (failing on an unresolved reference),
then reconcile. -/
def restoreFolderStep (overwrite : Bool) (now : Nat) (st : RestoreSt)
    (bf : BackupFolder) : Except MCPError RestoreSt :=
  match bf.parent_id with
  | some pid =>
    match mapGet st.map pid with
    | none =>
      .error ⟨ErrorCode.INVALID_INPUT,
        "Folder references parent folder which was not found in backup"⟩
    | some mp => restoreFolderStep2 overwrite now st bf (some mp)
  | none => restoreFolderStep2 overwrite now st bf none

/-- Prompt creation inside phase 2 (lines 2072-2100). -/
def restorePromptCreate (now : Nat) (st : RestoreSt) (bp : BackupPrompt)
    (mappedFolderId : Option Nat) : Except MCPError RestoreSt :=
  let nid := st.db.nextId
  let p : Prompt :=
    ⟨nid, bp.title, bp.content, mappedFolderId, bp.emoji, bp.color, bp.url,
      now, now⟩
  let db' : DB :=
    { st.db with prompts := st.db.prompts ++ [p], nextId := st.db.nextId + 1 }
  if !promptExists db' nid then
    .error ⟨ErrorCode.DATABASE_ERROR, "Failed to create prompt in backup restore"⟩
  else
    .ok { st with db := db', importedPrompts := st.importedPrompts + 1 }

/-- Collision handling for one snapshot prompt (lines 2059-2070):
matched by title — skip, or with `overwrite` delete the matched row and
recreate. -/
def restorePromptStep2 (overwrite : Bool) (now : Nat) (st : RestoreSt)
    (bp : BackupPrompt) (mappedFolderId : Option Nat) :
    Except MCPError RestoreSt :=
  match findPromptByTitle st.db bp.title with
  | some existing =>
    if !overwrite then
      .ok st
    else
      let db1 : DB :=
        { st.db with
          prompts := st.db.prompts.filter (fun p => p.id != existing.id) }
      restorePromptCreate now { st with db := db1 } bp mappedFolderId
  | none => restorePromptCreate now st bp mappedFolderId

/-- One iteration of phase 2 (lines 2039-2101): resolve the snapshot
folder reference through the mapping table built in phase 1 (failing on
an unresolved reference), then reconcile. -/
def restorePromptStep (overwrite : Bool) (now : Nat) (st : RestoreSt)
    (bp : BackupPrompt) : Except MCPError RestoreSt :=
  match bp.folder_id with
  | some fid =>
    match mapGet st.map fid with
    | none =>
      .error ⟨ErrorCode.INVALID_INPUT,
        "Prompt references folder which was not found in backup"⟩
    | some mf => restorePromptStep2 overwrite now st bp (some mf)
  | none => restorePromptStep2 overwrite now st bp none

/-- The `for ... of` loops of `restoreBackup` with `throw` aborting the
whole transaction: a fold that stops at the first error. -/
def foldSteps {β : Type} (step : RestoreSt → β → Except MCPError RestoreSt) :
    RestoreSt → List β → Except MCPError RestoreSt
  | st, [] => .ok st
  | st, b :: bs =>
    match step st b with
    | .error e => .error e
    | .ok st' => foldSteps step st' bs

/-- Phase 1 of `restoreBackup`: sort the snapshot folders by hierarchy
depth (parents first; JS `Array.prototype.sort` is stable and the
comparator `depth(a) - depth(b)` is a consistent total preorder, so the
result is the stable sort by depth, modelled by `List.insertionSort`),
then import each. -/
def restoreFoldersPhase (db : DB) (backupFolders : List BackupFolder)
    (overwrite : Bool) (now : Nat) : Except MCPError RestoreSt :=
  let sorted := List.insertionSort
    (fun a b => getFolderDepth backupFolders a ≤ getFolderDepth backupFolders b)
    backupFolders
  foldSteps (restoreFolderStep overwrite now) ⟨[], db, 0, 0⟩ sorted

/-- `restoreBackup` (lines 1950-2108): both phases inside one
transaction; returns the created-counts and the new store. -/
def restoreBackup (db : DB) (backupFolders : List BackupFolder)
    (backupPrompts : List BackupPrompt) (overwrite : Bool) (now : Nat) :
    Except MCPError ((Nat × Nat) × DB) :=
  match restoreFoldersPhase db backupFolders overwrite now with
  | .error e => .error e
  | .ok st1 =>
    match foldSteps (restorePromptStep overwrite now) st1 backupPrompts with
    | .error e => .error e
    | .ok st2 => .ok ((st2.importedFolders, st2.importedPrompts), st2.db)

/-- The store seen by the caller after a `restoreBackup` call: on a
thrown error the enclosing transaction rolls the store back. -/
def applyRestore (db : DB) (backupFolders : List BackupFolder)
    (backupPrompts : List BackupPrompt) (overwrite : Bool) (now : Nat) : DB :=
  match restoreBackup db backupFolders backupPrompts overwrite now with
  | .ok (_, db') => db'
  | .error _ => db

/-- The store seen by the caller after a `deleteFolder` call (rollback
on a thrown error). -/
def applyDeleteFolder (db : DB) (id : Nat) (recursive : Bool) : DB :=
  match deleteFolder db id recursive with
  | .ok db' => db'
  | .error _ => db

/-- An `Except` result that is a success. -/
def isOkB {α : Type} : Except MCPError α → Bool
  | .ok _ => true
  | .error _ => false

/-- Some surviving folder's `parentId` references an id absent from the
folders table (a dangling folder reference). -/
def danglingParent (db : DB) : Bool :=
  db.folders.any (fun f =>
    match f.parentId with
    | some p => !folderExists db p
    | none => false)

/-- The C2 failing input: a live store with root folder `A` (id 1) and
child folder `B` (id 2, parent 1), and a snapshot containing a root
folder also named `A`. -/
def c2LiveDB : DB :=
  ⟨[⟨1, "A", none, none, none, 0, 0⟩, ⟨2, "B", some 1, none, none, 0, 0⟩],
    [], 100⟩

def c2Snap : List BackupFolder := [⟨10, "A", none, none, none⟩]

/-- The C9 counterexample store: two folders whose parent references
form a cycle (1 → 2 → 1). -/
def c9CyclicDB : DB :=
  ⟨[⟨1, "x", some 2, none, none, 0, 0⟩, ⟨2, "y", some 1, none, none, 0, 0⟩],
    [], 10⟩

/-! ## Parent-chain lemmas -/

theorem chase_none (folders : List Folder) (n : Nat) :
    chase folders n none = true := by
  cases n <;> rfl

theorem chase_succ (folders : List Folder) (n : Nat) (c : Nat) :
    chase folders (n + 1) (some c) = chase folders n (parentOf folders c) := rfl

theorem chase_mono (folders : List Folder) :
    ∀ {n m : Nat} {o : Option Nat}, n ≤ m →
      chase folders n o = true → chase folders m o = true := by
  intro n
  induction n with
  | zero =>
    intro m o _ h
    cases o with
    | none => exact chase_none folders m
    | some c => exact absurd h (by simp [chase])
  | succ n ih =>
    intro m o hle h
    cases o with
    | none => exact chase_none folders m
    | some c =>
      cases m with
      | zero => exact absurd hle (by omega)
      | succ m' =>
        rw [chase_succ] at h ⊢
        exact ih (by omega) h

theorem onChain_none (folders : List Folder) (n : Nat) (x : Nat) :
    onChain folders n none x = false := by
  cases n <;> rfl

theorem onChain_succ (folders : List Folder) (n : Nat) (c x : Nat) :
    onChain folders (n + 1) (some c) x =
      ((x == c) || onChain folders n (parentOf folders c) x) := rfl

theorem OnChain_self (folders : List Folder) (c : Nat) :
    OnChain folders (some c) c :=
  ⟨1, by simp [onChain_succ, onChain_none]⟩

theorem OnChain_of_parent (folders : List Folder) (c x : Nat)
    (h : OnChain folders (parentOf folders c) x) :
    OnChain folders (some c) x := by
  obtain ⟨n, hn⟩ := h
  exact ⟨n + 1, by simp [onChain_succ, hn]⟩

theorem OnChain_cases (folders : List Folder) (c x : Nat)
    (h : OnChain folders (some c) x) :
    x = c ∨ OnChain folders (parentOf folders c) x := by
  obtain ⟨n, hn⟩ := h
  cases n with
  | zero => exact absurd hn (by simp [onChain])
  | succ n' =>
    rw [onChain_succ, Bool.or_eq_true] at hn
    rcases hn with h1 | h2
    · exact Or.inl (beq_iff_eq.mp h1)
    · exact Or.inr ⟨n', h2⟩

theorem not_OnChain_none (folders : List Folder) (x : Nat) :
    ¬ OnChain folders none x := by
  rintro ⟨n, hn⟩
  rw [onChain_none] at hn
  cases hn

/-- If `x` is on the chain from `o` and the chain from `o` terminates in
`m` steps, then so does the chain from `x`. -/
theorem chase_of_onChain (folders : List Folder) :
    ∀ {n : Nat} {o : Option Nat} {x m : Nat},
      onChain folders n o x = true → chase folders m o = true →
      chase folders m (some x) = true := by
  intro n
  induction n with
  | zero =>
    intro o x m h _
    cases o with
    | none => rw [onChain_none] at h; cases h
    | some c => exact absurd h (by simp [onChain])
  | succ n ih =>
    intro o x m h hc
    cases o with
    | none => rw [onChain_none] at h; cases h
    | some c =>
      rw [onChain_succ, Bool.or_eq_true] at h
      rcases h with h1 | h2
      · rwa [beq_iff_eq.mp h1]
      · cases m with
        | zero => exact absurd hc (by simp [chase])
        | succ m' =>
          rw [chase_succ] at hc
          exact chase_mono folders (Nat.le_succ m') (ih h2 hc)

/-- A folder with a terminating parent chain is not a strict iterated
parent of itself. -/
theorem not_onChain_parent_self (folders : List Folder) (c : Nat)
    (ht : Terminates folders (some c)) :
    ¬ OnChain folders (parentOf folders c) c := by
  rintro ⟨n, hn⟩
  obtain ⟨m, hm⟩ := ht
  have key : ∀ k, chase folders k (some c) = false := by
    intro k
    induction k with
    | zero => rfl
    | succ k ih =>
      rw [chase_succ]
      cases hck : chase folders k (parentOf folders c) with
      | false => rfl
      | true => exact absurd (chase_of_onChain folders hn hck) (by simp [ih])
  rw [key m] at hm
  cases hm

/-- Chain transitivity. -/
theorem OnChain_trans (folders : List Folder) :
    ∀ {n : Nat} {o : Option Nat} {x y : Nat},
      onChain folders n o x = true → OnChain folders (some x) y →
      OnChain folders o y := by
  intro n
  induction n with
  | zero =>
    intro o x y h _
    cases o with
    | none => rw [onChain_none] at h; cases h
    | some c => exact absurd h (by simp [onChain])
  | succ n ih =>
    intro o x y h hy
    cases o with
    | none => rw [onChain_none] at h; cases h
    | some c =>
      rw [onChain_succ, Bool.or_eq_true] at h
      rcases h with h1 | h2
      · rwa [beq_iff_eq.mp h1] at hy
      · exact OnChain_of_parent folders c y (ih h2 hy)

/-- On a terminating chain, mutual reachability implies equality. -/
theorem OnChain_antisymm (folders : List Folder) (a b : Nat)
    (ht : Terminates folders (some a))
    (hab : OnChain folders (some a) b) (hba : OnChain folders (some b) a) :
    a = b := by
  by_contra hne
  rcases OnChain_cases folders a b hab with h | h
  · exact hne h.symm
  · obtain ⟨n, hn⟩ := h
    exact not_onChain_parent_self folders a ht (OnChain_trans folders hn hba)

/-- A decidable sufficient condition for `Acyclic`, usable on concrete
stores. -/
theorem Acyclic_of_all (folders : List Folder)
    (h : folders.all
      (fun f => chase folders (folders.length + 1) (some f.id)) = true) :
    Acyclic folders := by
  intro c
  cases hfind : folders.find? (fun f => f.id == c) with
  | none =>
    refine ⟨1, ?_⟩
    rw [chase_succ]
    unfold parentOf
    rw [hfind]
    exact chase_none folders 0
  | some f =>
    have hmem : f ∈ folders := List.mem_of_find?_eq_some hfind
    have hid : f.id = c := by simpa using List.find?_some hfind
    refine ⟨folders.length + 1, ?_⟩
    rw [← hid]
    exact List.all_eq_true.1 h f hmem

/-! ## Cycle-walk lemmas -/

theorem cycleWalkAux_none (folders : List Folder) (target fuel : Nat)
    (visited : List Nat) :
    cycleWalkAux folders target fuel none visited = some false := by
  cases fuel <;> rfl

theorem cycleWalkAux_succ (folders : List Folder) (target fuel : Nat)
    (c : Nat) (visited : List Nat) :
    cycleWalkAux folders target (fuel + 1) (some c) visited =
      (if visited.contains c then some false
       else if c == target then some true
       else cycleWalkAux folders target fuel (parentOf folders c)
         (c :: visited)) := rfl

/-- More fuel never changes a completed walk. -/
theorem cycleWalkAux_mono (folders : List Folder) (target : Nat) :
    ∀ {fuel fuel' : Nat} {cur : Option Nat} {visited : List Nat} {r : Bool},
      fuel ≤ fuel' →
      cycleWalkAux folders target fuel cur visited = some r →
      cycleWalkAux folders target fuel' cur visited = some r := by
  intro fuel
  induction fuel with
  | zero =>
    intro fuel' cur visited r _ h
    cases cur with
    | none => rw [cycleWalkAux_none] at h; rw [cycleWalkAux_none, h]
    | some c => exact absurd h (by simp [cycleWalkAux])
  | succ fuel ih =>
    intro fuel' cur visited r hle h
    cases cur with
    | none => rw [cycleWalkAux_none] at h; rw [cycleWalkAux_none, h]
    | some c =>
      cases fuel' with
      | zero => exact absurd hle (by omega)
      | succ fuel'' =>
        rw [cycleWalkAux_succ] at h ⊢
        by_cases h1 : visited.contains c
        · rwa [if_pos h1] at h ⊢
        · rw [if_neg h1] at h ⊢
          by_cases h2 : (c == target) = true
          · rwa [if_pos h2] at h ⊢
          · rw [if_neg h2] at h ⊢
            exact ih (by omega) h

/-- The parent-id pool: every id the walk can move to after its first
step. -/
def parentPool (folders : List Folder) : List Nat :=
  (folders.filterMap Folder.parentId).dedup

theorem mem_parentPool_of_parentOf (folders : List Folder) {c d : Nat}
    (h : parentOf folders c = some d) : d ∈ parentPool folders := by
  unfold parentOf at h
  cases hfind : folders.find? (fun f => f.id == c) with
  | none => rw [hfind] at h; cases h
  | some f =>
    rw [hfind] at h
    exact List.mem_dedup.2 (List.mem_filterMap.2
      ⟨f, List.mem_of_find?_eq_some hfind, h⟩)

theorem length_filter_ne_lt (a : Nat) :
    ∀ l : List Nat, a ∈ l →
      (l.filter (fun x => !(x == a))).length < l.length := by
  intro l
  induction l with
  | nil => intro h; cases h
  | cons b t ih =>
    intro hmem
    by_cases hb : b = a
    · have hstep : (b :: t).filter (fun x => !(x == a)) =
          t.filter (fun x => !(x == a)) := by
        simp [List.filter_cons, hb]
      rw [hstep]
      exact Nat.lt_succ_of_le (List.length_filter_le _ t)
    · have hmem2 : a ∈ t := by
        rcases List.mem_cons.1 hmem with h | h
        · exact absurd h.symm hb
        · exact h
      have hstep : (b :: t).filter (fun x => !(x == a)) =
          b :: t.filter (fun x => !(x == a)) := by
        simp [List.filter_cons, hb]
      rw [hstep]
      simpa using Nat.succ_lt_succ (ih hmem2)

theorem mem_of_containsB {l : List Nat} {a : Nat} (h : l.contains a = true) :
    a ∈ l := by
  simpa using h

theorem containsB_of_mem {l : List Nat} {a : Nat} (h : a ∈ l) :
    l.contains a = true := by
  simpa using h

/-- Each walk step moves into the parent pool and enlarges the visited
set inside it, so the walk completes within
`|pool not yet visited| + 1` steps once inside the pool. -/
theorem cycleWalkAux_isSome_of_pool (folders : List Folder) (target : Nat) :
    ∀ {fuel : Nat} {c : Nat} {visited : List Nat},
      c ∈ parentPool folders →
      ((parentPool folders).filter
        (fun x => !(visited.contains x))).length + 1 ≤ fuel →
      (cycleWalkAux folders target fuel (some c) visited).isSome = true := by
  intro fuel
  induction fuel with
  | zero => intro c visited _ hle; omega
  | succ fuel ih =>
    intro c visited hc hle
    rw [cycleWalkAux_succ]
    by_cases h1 : visited.contains c
    · rw [if_pos h1]; rfl
    · rw [if_neg h1]
      by_cases h2 : (c == target) = true
      · rw [if_pos h2]; rfl
      · rw [if_neg h2]
        cases hpar : parentOf folders c with
        | none => rw [cycleWalkAux_none]; rfl
        | some d =>
          apply ih (mem_parentPool_of_parentOf folders hpar)
          have hsplit : (parentPool folders).filter
              (fun x => !((c :: visited).contains x)) =
              ((parentPool folders).filter (fun x => !(visited.contains x))).filter
                (fun x => !(x == c)) := by
            rw [List.filter_filter]
            refine List.filter_congr ?_
            intro x _
            rw [List.contains_cons, Bool.not_or, Bool.and_comm]
          have hnotc : visited.contains c = false := by
            cases hcc : visited.contains c
            · rfl
            · exact absurd hcc h1
          have hmemc : c ∈ (parentPool folders).filter
              (fun x => !(visited.contains x)) :=
            List.mem_filter.2 ⟨hc, by rw [hnotc]; rfl⟩
          have hlt := length_filter_ne_lt c _ hmemc
          rw [hsplit]
          omega

/-- `wouldCreateCycle` always completes: the fixed fuel
`folders.length + 2` is sufficient on every store, cyclic ones
included, because of the explicit visited set. -/
theorem wouldCreateCycle_isSome (folders : List Folder) (folderId : Nat)
    (pp : Option Nat) : (wouldCreateCycle folders folderId pp).isSome = true := by
  cases pp with
  | none => rfl
  | some p =>
    have hred : wouldCreateCycle folders folderId (some p) =
        if (folderId == p) = true then some true
        else cycleWalkAux folders folderId (folders.length + 2) (some p) [] := rfl
    rw [hred]
    by_cases hfp : (folderId == p) = true
    · rw [if_pos hfp]; rfl
    · rw [if_neg hfp]
      have hlen1 : (parentPool folders).length ≤ folders.length := by
        calc (parentPool folders).length
            ≤ (folders.filterMap Folder.parentId).length :=
              (List.dedup_sublist _).length_le
          _ ≤ folders.length := List.length_filterMap_le _ _
      rw [show folders.length + 2 = (folders.length + 1) + 1 from rfl,
        cycleWalkAux_succ]
      have h1 : ¬ (([] : List Nat).contains p = true) := by simp
      rw [if_neg h1]
      by_cases h2 : (p == folderId) = true
      · rw [if_pos h2]; rfl
      · rw [if_neg h2]
        cases hpar : parentOf folders p with
        | none => rw [cycleWalkAux_none]; rfl
        | some d =>
          apply cycleWalkAux_isSome_of_pool folders folderId
            (mem_parentPool_of_parentOf folders hpar)
          have hfl : ((parentPool folders).filter
              (fun x => !(([p] : List Nat).contains x))).length ≤
              (parentPool folders).length := List.length_filter_le _ _
          omega

/-- On a terminating chain none of whose elements has been visited, the
walk's answer is exactly "the target lies on the chain". -/
theorem cycleWalkAux_correct (folders : List Folder) (target : Nat) :
    ∀ {n : Nat} {c : Nat} {visited : List Nat} {fuel : Nat} {r : Bool},
      chase folders n (some c) = true → n ≤ fuel →
      (∀ v ∈ visited, ¬ OnChain folders (some c) v) →
      cycleWalkAux folders target fuel (some c) visited = some r →
      (r = true ↔ OnChain folders (some c) target) := by
  intro n
  induction n with
  | zero =>
    intro c visited fuel r h _ _ _
    exact absurd h (by simp [chase])
  | succ n ih =>
    intro c visited fuel r h hle hvis hw
    have hterm : Terminates folders (some c) := ⟨n + 1, h⟩
    cases fuel with
    | zero => omega
    | succ fuel' =>
      rw [cycleWalkAux_succ] at hw
      by_cases h1 : visited.contains c
      · exact absurd (OnChain_self folders c) (hvis c (mem_of_containsB h1))
      · rw [if_neg h1] at hw
        by_cases h2 : (c == target) = true
        · rw [if_pos h2] at hw
          have hr : r = true := (Option.some.inj hw).symm
          subst hr
          have hct : target = c := (beq_iff_eq.mp h2).symm
          exact ⟨fun _ => hct ▸ OnChain_self folders c, fun _ => rfl⟩
        · rw [if_neg h2] at hw
          rw [chase_succ] at h
          cases hpar : parentOf folders c with
          | none =>
            rw [hpar, cycleWalkAux_none] at hw
            have hr : r = false := (Option.some.inj hw).symm
            subst hr
            constructor
            · intro hfalse; cases hfalse
            · intro ht
              rcases OnChain_cases folders c target ht with he | hp
              · exact absurd (by simp [he] : (c == target) = true) h2
              · rw [hpar] at hp
                exact absurd hp (not_OnChain_none folders target)
          | some d =>
            rw [hpar] at hw h
            have hnp : ¬ OnChain folders (some d) c := by
              have := not_onChain_parent_self folders c hterm
              rwa [hpar] at this
            have hvis' : ∀ v ∈ c :: visited, ¬ OnChain folders (some d) v := by
              intro v hv
              rcases List.mem_cons.1 hv with rfl | hv2
              · exact hnp
              · intro hdv
                refine hvis v hv2 ?_
                have := OnChain_of_parent folders c v
                rw [hpar] at this
                exact this hdv
            have hiff := ih h (by omega) hvis' hw
            constructor
            · intro hr
              have := OnChain_of_parent folders c target
              rw [hpar] at this
              exact this (hiff.mp hr)
            · intro ht
              rcases OnChain_cases folders c target ht with he | hp
              · exact absurd (by simp [he] : (c == target) = true) h2
              · rw [hpar] at hp
                exact hiff.mpr hp

/-! ## Reparenting lemmas (for C3) -/

/-- What the `UPDATE folders` row transform does to the parent map:
only the updated folder's parent can change, and only when the
change-set carries a `parentId` field. -/
theorem parentOf_updatedFolders (db : DB) (id : Nat) (d : FolderUpdate)
    (now : Nat) (c : Nat) :
    parentOf (updatedFolders db id d now) c =
      (match db.folders.find? (fun f => f.id == c) with
       | none => none
       | some f => if c = id then d.parentId.getD f.parentId else f.parentId) := by
  unfold parentOf updatedFolders
  rw [List.find?_map]
  have hpred : ((fun f : Folder => f.id == c) ∘
      (fun f => if f.id == id then applyFolderUpdate d now f else f)) =
      (fun f : Folder => f.id == c) := by
    funext f
    by_cases hf : (f.id == id) = true
    · simp only [Function.comp_apply, if_pos hf]
      rfl
    · simp only [Function.comp_apply, if_neg hf]
  rw [hpred]
  cases hfind : db.folders.find? (fun f => f.id == c) with
  | none => rfl
  | some f =>
    have hfid : f.id = c := by simpa using List.find?_some hfind
    by_cases hc : c = id
    · have hbeq : (f.id == id) = true := by rw [hfid, hc]; simp
      show (if (f.id == id) = true then applyFolderUpdate d now f else f).parentId =
        (if c = id then d.parentId.getD f.parentId else f.parentId)
      rw [if_pos hbeq, if_pos hc]
      rfl
    · have hbeq : (f.id == id) = false := by rw [hfid]; simp [hc]
      show (if (f.id == id) = true then applyFolderUpdate d now f else f).parentId =
        (if c = id then d.parentId.getD f.parentId else f.parentId)
      rw [if_neg (by simp [hbeq]), if_neg hc]

theorem chase_congr (fl1 fl2 : List Folder)
    (hp : ∀ c, parentOf fl1 c = parentOf fl2 c) :
    ∀ (n : Nat) (o : Option Nat), chase fl1 n o = chase fl2 n o := by
  intro n
  induction n with
  | zero => intro o; cases o <;> rfl
  | succ n ih =>
    intro o
    cases o with
    | none => rfl
    | some c => rw [chase_succ, chase_succ, hp c, ih]

/-- A chain that terminates while avoiding the updated folder id still
terminates in the updated table. -/
theorem chase_updated_of_avoid (db : DB) (id : Nat) (d : FolderUpdate)
    (now : Nat) :
    ∀ {n : Nat} {o : Option Nat},
      chase db.folders n o = true →
      (∀ x, OnChain db.folders o x → x ≠ id) →
      chase (updatedFolders db id d now) n o = true := by
  intro n
  induction n with
  | zero =>
    intro o h _
    cases o with
    | none => exact chase_none _ 0
    | some c => exact absurd h (by simp [chase])
  | succ n ih =>
    intro o h havoid
    cases o with
    | none => exact chase_none _ _
    | some c =>
      have hcne : c ≠ id := havoid c (OnChain_self db.folders c)
      rw [chase_succ] at h ⊢
      have hpar : parentOf (updatedFolders db id d now) c =
          parentOf db.folders c := by
        rw [parentOf_updatedFolders]
        cases hfind : db.folders.find? (fun f => f.id == c) with
        | none => unfold parentOf; rw [hfind]
        | some f =>
          unfold parentOf
          rw [hfind]
          simp [hcne]
      rw [hpar]
      exact ih h (fun x hx => havoid x (OnChain_of_parent db.folders c x hx))

/-- Rebuilding acyclicity after a reparent: if the old table was acyclic
and the updated folder's new parent chain terminates in the new table,
every chain terminates in the new table. -/
theorem terminates_updated_aux (db : DB) (id : Nat) (d : FolderUpdate)
    (now : Nat)
    (hterm : Terminates (updatedFolders db id d now)
      (parentOf (updatedFolders db id d now) id)) :
    ∀ n c, chase db.folders n (some c) = true →
      Terminates (updatedFolders db id d now) (some c) := by
  intro n
  induction n with
  | zero => intro c h; exact absurd h (by simp [chase])
  | succ n ih =>
    intro c hn
    by_cases hc : c = id
    · subst hc
      obtain ⟨k, hk⟩ := hterm
      exact ⟨k + 1, by rw [chase_succ]; exact hk⟩
    · have hpar : parentOf (updatedFolders db id d now) c =
          parentOf db.folders c := by
        rw [parentOf_updatedFolders]
        cases hfind : db.folders.find? (fun f => f.id == c) with
        | none => unfold parentOf; rw [hfind]
        | some f =>
          unfold parentOf
          rw [hfind]
          simp [hc]
      rw [chase_succ] at hn
      cases hpo : parentOf db.folders c with
      | none => exact ⟨1, by rw [chase_succ, hpar, hpo]; exact chase_none _ 0⟩
      | some dd =>
        rw [hpo] at hn
        obtain ⟨k, hk⟩ := ih dd hn
        exact ⟨k + 1, by rw [chase_succ, hpar, hpo]; exact hk⟩

theorem acyclic_of_updated (db : DB) (id : Nat) (d : FolderUpdate) (now : Nat)
    (hA : Acyclic db.folders)
    (hterm : Terminates (updatedFolders db id d now)
      (parentOf (updatedFolders db id d now) id)) :
    Acyclic (updatedFolders db id d now) := by
  intro c
  obtain ⟨n, hn⟩ := hA c
  exact terminates_updated_aux db id d now hterm n c hn

theorem updateFolderTx_ok_folders (db : DB) (id : Nat) (d : FolderUpdate)
    (now : Nat) (db' : DB) (htx : updateFolderTx db id d now = .ok db') :
    db'.folders = db.folders ∨ db'.folders = updatedFolders db id d now := by
  unfold updateFolderTx at htx
  split at htx
  · exact Or.inl (by rw [← Except.ok.inj htx])
  · split at htx
    · exact Or.inr (by rw [← Except.ok.inj htx])
    · cases htx

theorem updateFolder_ok_inv (db : DB) (id : Nat) (d : FolderUpdate)
    (now : Nat) (db' : DB) (hok : updateFolder db id d now = .ok db') :
    (match d.parentId with
      | some pp => wouldCreateCycleB db.folders id pp
      | none => false) = false ∧
    (db'.folders = db.folders ∨ db'.folders = updatedFolders db id d now) := by
  unfold updateFolder at hok
  split at hok
  · cases hok
  · split at hok
    · cases hok
    · rename_i hguard
      split at hok
      · cases hok
      · rename_i hcyc
        have hcyc' : (match d.parentId with
            | some pp => wouldCreateCycleB db.folders id pp
            | none => false) = false := by
          cases hmm : (match d.parentId with
              | some pp => wouldCreateCycleB db.folders id pp
              | none => false)
          · rfl
          · exact absurd hmm hcyc
        refine ⟨hcyc', ?_⟩
        split at hok
        · split at hok
          · cases hok
          · split at hok
            · split at hok
              · cases hok
              · exact updateFolderTx_ok_folders db id d now db' hok
            · exact updateFolderTx_ok_folders db id d now db' hok
        · exact updateFolderTx_ok_folders db id d now db' hok

/-! ## Theorems -/

/-- **C1.** The schema guard can never pass: `connect()` reads the
`schema_version` pragma without `{ simple: true }`, so the strict `!==`
at write-tools.ts line 896 compares an array of row objects against the
number 27 and reports a mismatch for every store.  From a closed state
`connect()` fails with the wrapped schema-mismatch `DATABASE_ERROR`
(message ending in `got [object Object]`) for every stored version —
including a store whose marker is exactly `PROMPTEKA_SCHEMA_VERSION`,
where the claim promises a successful writable connection. -/
theorem connect_schema_guard_unreachable :
    connect PROMPTEKA_SCHEMA_VERSION ⟨false⟩ =
        .error (schemaMismatchError "[object Object]") ∧
      ∀ stored : Nat, connect stored ⟨false⟩ =
        .error (schemaMismatchError "[object Object]") :=
  ⟨rfl, fun _ => rfl⟩

/-- **C4.** Deleting a folder that has a direct prompt or a direct
subfolder with `recursive = false` fails with `FOLDER_NOT_EMPTY`, and
the store the caller sees is completely unchanged. -/
theorem deleteFolder_nonrecursive_not_empty (db : DB) (id : Nat)
    (hex : folderExists db id = true)
    (hne : (∃ p ∈ db.prompts, p.folderId = some id) ∨
           (∃ f ∈ db.folders, f.parentId = some id)) :
    (∃ e, deleteFolder db id false = .error e ∧
        e.code = ErrorCode.FOLDER_NOT_EMPTY) ∧
    applyDeleteFolder db id false = db := by
  have herr : ∃ e, deleteFolder db id false = .error e ∧
      e.code = ErrorCode.FOLDER_NOT_EMPTY := by
    by_cases hp : 0 < (db.prompts.filter (fun p => p.folderId == some id)).length
    · exact ⟨⟨ErrorCode.FOLDER_NOT_EMPTY,
        "Folder has prompts. Use recursive=true to delete with contents."⟩,
        by simp [deleteFolder, hex, hp], rfl⟩
    · have hf : 0 < (db.folders.filter (fun f => f.parentId == some id)).length := by
        rcases hne with ⟨p, hpm, hpf⟩ | ⟨f, hfm, hff⟩
        · exact absurd (List.length_pos.2 (List.ne_nil_of_mem
            (List.mem_filter.2 ⟨hpm, by simp [hpf]⟩))) hp
        · exact List.length_pos.2 (List.ne_nil_of_mem
            (List.mem_filter.2 ⟨hfm, by simp [hff]⟩))
      exact ⟨⟨ErrorCode.FOLDER_NOT_EMPTY,
        "Folder has subfolders. Use recursive=true to delete with contents."⟩,
        by simp [deleteFolder, hex, hp, hf], rfl⟩
  obtain ⟨e, he, hc⟩ := herr
  refine ⟨⟨e, he, hc⟩, ?_⟩
  simp [applyDeleteFolder, he]

theorem deleteFolder_nonrecursive_not_empty_witness :
    folderExists ⟨[⟨1, "A", none, none, none, 0, 0⟩,
        ⟨2, "B", some 1, none, none, 0, 0⟩], [], 100⟩ 1 = true ∧
    ((∃ e, deleteFolder ⟨[⟨1, "A", none, none, none, 0, 0⟩,
          ⟨2, "B", some 1, none, none, 0, 0⟩], [], 100⟩ 1 false = .error e ∧
        e.code = ErrorCode.FOLDER_NOT_EMPTY) ∧
      applyDeleteFolder ⟨[⟨1, "A", none, none, none, 0, 0⟩,
          ⟨2, "B", some 1, none, none, 0, 0⟩], [], 100⟩ 1 false =
        ⟨[⟨1, "A", none, none, none, 0, 0⟩,
          ⟨2, "B", some 1, none, none, 0, 0⟩], [], 100⟩) :=
  ⟨rfl, deleteFolder_nonrecursive_not_empty _ 1 rfl
    (Or.inr ⟨⟨2, "B", some 1, none, none, 0, 0⟩, by simp, rfl⟩)⟩

/-- **C2** (code bug, evaluated at the failing input).  `restoreBackup`
with `overwrite = true` on a matched folder deletes only the folder row
and its direct prompts (write-tools.ts lines 2003-2004) — despite its
own comment "delete existing folder and its contents ... Use cascade
delete to handle children" — so the restore succeeds and leaves the
matched folder's child `B` with a `parentId` that references the deleted
folder id 1: a dangling folder reference survives the restore. -/
theorem restore_overwrite_leaves_dangling_parent :
    isOkB (restoreBackup c2LiveDB c2Snap [] true 5) = true ∧
    danglingParent (applyRestore c2LiveDB c2Snap [] true 5) = true := by
  decide

/-- **C9 counterexample.**  The cascading delete has no visited set: on
a 2-folder cyclic table, `recursivelyDeleteFolder` fails to complete for
every recursion-depth budget up to 64 (a traversal visiting each folder
at most once would need depth ≤ 3), i.e. the source recursion is
unbounded there — while the visited-set cycle walk on the very same
table does terminate. -/
theorem recursive_delete_unbounded_on_cycle :
    ((List.range 64).all
        (fun n => (recursivelyDeleteFolder n c9CyclicDB 1).isNone)) = true ∧
    (cycleWalkAux c9CyclicDB.folders 3 4 (some 1) []).isSome = true := by
  decide

/-- **C3.** Folder reparenting preserves acyclicity: if every folder's
parent chain terminates before an `updateFolder` call, it still does
after any successful `updateFolder`; and when a reparent request's
proposed parent chain reaches the folder's own id, `updateFolder`
rejects it with the structural-violation (`INVALID_INPUT`) outcome. -/
theorem updateFolder_preserves_acyclicity (db db' : DB) (id : Nat)
    (d : FolderUpdate) (now : Nat) :
    (Acyclic db.folders → updateFolder db id d now = .ok db' →
      Acyclic db'.folders) ∧
    (∀ pp, d.parentId = some pp → folderExists db id = true →
      (match pp with | some p => folderExists db p | none => true) = true →
      wouldCreateCycleB db.folders id pp = true →
      updateFolder db id d now = .error ⟨ErrorCode.INVALID_INPUT,
        "Cannot move folder - would create a circular hierarchy"⟩) := by
  constructor
  · intro hA hok
    obtain ⟨hguard, hdisj⟩ := updateFolder_ok_inv db id d now db' hok
    rcases hdisj with hsame | hupd
    · rw [hsame]; exact hA
    · rw [hupd]
      cases hdp : d.parentId with
      | none =>
        have hcongr : ∀ c, parentOf (updatedFolders db id d now) c =
            parentOf db.folders c := by
          intro c
          rw [parentOf_updatedFolders]
          cases hfind : db.folders.find? (fun f => f.id == c) with
          | none => unfold parentOf; rw [hfind]
          | some f =>
            unfold parentOf
            rw [hfind, hdp]
            show (if c = id then (none : Option (Option Nat)).getD f.parentId
                else f.parentId) = f.parentId
            by_cases hc : c = id
            · rw [if_pos hc]; rfl
            · rw [if_neg hc]
        intro c
        obtain ⟨n, hn⟩ := hA c
        exact ⟨n, by rw [chase_congr _ _ hcongr]; exact hn⟩
      | some pp =>
        rw [hdp] at hguard
        apply acyclic_of_updated db id d now hA
        have hterm_of : ∀ q, d.parentId.getD q = pp → Terminates
            (updatedFolders db id d now) (pp) → True := fun _ _ _ => trivial
        have hpar_id : parentOf (updatedFolders db id d now) id =
            (match db.folders.find? (fun f => f.id == id) with
             | none => none
             | some f => d.parentId.getD f.parentId) := by
          rw [parentOf_updatedFolders]
          cases hfind : db.folders.find? (fun f => f.id == id) with
          | none => rfl
          | some f =>
            show (if id = id then d.parentId.getD f.parentId else f.parentId) =
              d.parentId.getD f.parentId
            rw [if_pos rfl]
        cases pp with
        | none =>
          rw [hpar_id, hdp]
          cases hfind : db.folders.find? (fun f => f.id == id) with
          | none => exact ⟨0, chase_none _ 0⟩
          | some f => exact ⟨0, chase_none _ 0⟩
        | some p =>
          have hguardB : (wouldCreateCycle db.folders id (some p)).getD false =
              false := hguard
          have hwalk : wouldCreateCycle db.folders id (some p) = some false := by
            have hs := wouldCreateCycle_isSome db.folders id (some p)
            cases hw : wouldCreateCycle db.folders id (some p) with
            | none => rw [hw] at hs; cases hs
            | some r =>
              rw [hw] at hguardB
              simp only [Option.getD] at hguardB
              rw [hguardB]
          have hif : wouldCreateCycle db.folders id (some p) =
              (if (id == p) = true then some true
               else cycleWalkAux db.folders id (db.folders.length + 2)
                 (some p) []) := rfl
          have hne : (id == p) = false := by
            cases hip : (id == p) with
            | false => rfl
            | true =>
              rw [hif, if_pos hip] at hwalk
              cases hwalk
          have hwaux : cycleWalkAux db.folders id (db.folders.length + 2)
              (some p) [] = some false := by
            rw [hif, if_neg (by simp [hne])] at hwalk
            exact hwalk
          obtain ⟨n, hn⟩ := hA p
          have hwaux' : cycleWalkAux db.folders id (n + (db.folders.length + 2))
              (some p) [] = some false :=
            cycleWalkAux_mono db.folders id (by omega) hwaux
          have hiff := cycleWalkAux_correct db.folders id hn (by omega)
            (fun v hv => absurd hv (List.not_mem_nil v)) hwaux'
          have hno : ¬ OnChain db.folders (some p) id := by
            intro hoc
            have : (false : Bool) = true := hiff.mpr hoc
            cases this
          have hchase' : chase (updatedFolders db id d now) n (some p) = true :=
            chase_updated_of_avoid db id d now hn
              (fun x hx => by rintro rfl; exact hno hx)
          rw [hpar_id, hdp]
          cases hfind : db.folders.find? (fun f => f.id == id) with
          | none => exact ⟨0, chase_none _ 0⟩
          | some f => exact ⟨n, hchase'⟩
  · intro pp hdp hex hpex hcyc
    unfold updateFolder
    rw [if_neg (by simp [hex])]
    have hg2 : (match d.parentId with
        | some (some p) => !folderExists db p
        | _ => false) = false := by
      rw [hdp]
      cases pp with
      | none => rfl
      | some p => simp at hpex; simp [hpex]
    rw [if_neg (by simp [hg2])]
    have hg3 : (match d.parentId with
        | some pp => wouldCreateCycleB db.folders id pp
        | none => false) = true := by
      rw [hdp]
      exact hcyc
    rw [if_pos hg3]

theorem updateFolder_preserves_acyclicity_witness :
    (Acyclic (⟨[⟨1, "A", none, none, none, 0, 0⟩,
        ⟨2, "B", none, none, none, 0, 5⟩], [], 10⟩ : DB).folders) ∧
    (updateFolder
        (⟨[⟨1, "A", none, none, none, 0, 0⟩,
           ⟨2, "B", some 1, none, none, 0, 0⟩], [], 10⟩ : DB) 1
        ⟨none, some (some 2), none, none⟩ 5 =
      .error ⟨ErrorCode.INVALID_INPUT,
        "Cannot move folder - would create a circular hierarchy"⟩) :=
  ⟨(updateFolder_preserves_acyclicity
      ⟨[⟨1, "A", none, none, none, 0, 0⟩, ⟨2, "B", some 1, none, none, 0, 0⟩],
        [], 10⟩
      ⟨[⟨1, "A", none, none, none, 0, 0⟩, ⟨2, "B", none, none, none, 0, 5⟩],
        [], 10⟩
      2 ⟨none, some none, none, none⟩ 5).1
      (Acyclic_of_all _ (by decide)) rfl,
    (updateFolder_preserves_acyclicity
      ⟨[⟨1, "A", none, none, none, 0, 0⟩, ⟨2, "B", some 1, none, none, 0, 0⟩],
        [], 10⟩
      ⟨[], [], 0⟩ 1 ⟨none, some (some 2), none, none⟩ 5).2
      (some 2) rfl rfl rfl (by decide)⟩

/-- `restorePromptCreate` never throws: the inserted row is read back
successfully (`promptExists` over an append always finds the new id). -/
theorem restorePromptCreate_ok (now : Nat) (st : RestoreSt) (bp : BackupPrompt)
    (mf : Option Nat) :
    restorePromptCreate now st bp mf =
      .ok { st with
        db := { st.db with
          prompts := st.db.prompts ++
            [⟨st.db.nextId, bp.title, bp.content, mf, bp.emoji, bp.color,
              bp.url, now, now⟩],
          nextId := st.db.nextId + 1 }
        importedPrompts := st.importedPrompts + 1 } := by
  unfold restorePromptCreate
  rw [if_neg]
  simp [promptExists, List.any_append]

/-- Phase 2 never changes the id-mapping table. -/
theorem restorePromptStep_map (ow : Bool) (now : Nat) (st st' : RestoreSt)
    (bp : BackupPrompt) (h : restorePromptStep ow now st bp = .ok st') :
    st'.map = st.map := by
  unfold restorePromptStep at h
  have hstep2 : ∀ mf st0, restorePromptStep2 ow now st0 bp mf = .ok st' →
      st'.map = st0.map := by
    intro mf st0 h2
    unfold restorePromptStep2 at h2
    split at h2
    · split at h2
      · rw [← Except.ok.inj h2]
      · rw [restorePromptCreate_ok] at h2
        rw [← Except.ok.inj h2]
    · rw [restorePromptCreate_ok] at h2
      rw [← Except.ok.inj h2]
  split at h
  · split at h
    · cases h
    · exact hstep2 _ _ h
  · exact hstep2 _ _ h

/-- Every error thrown by a phase-2 iteration is the unresolved-reference
`INVALID_INPUT`. -/
theorem restorePromptStep_error_code (ow : Bool) (now : Nat) (st : RestoreSt)
    (bp : BackupPrompt) (e : MCPError)
    (h : restorePromptStep ow now st bp = .error e) :
    e.code = ErrorCode.INVALID_INPUT := by
  unfold restorePromptStep at h
  have hstep2 : ∀ mf st0, restorePromptStep2 ow now st0 bp mf = .error e →
      e.code = ErrorCode.INVALID_INPUT := by
    intro mf st0 h2
    unfold restorePromptStep2 at h2
    split at h2
    · split at h2
      · cases h2
      · rw [restorePromptCreate_ok] at h2; cases h2
    · rw [restorePromptCreate_ok] at h2; cases h2
  split at h
  · split at h
    · exact (MCPError.mk.inj (Except.error.inj h)).1.symm ▸ rfl
    · exact hstep2 _ _ h
  · exact hstep2 _ _ h

/-- An unresolved snapshot folder reference in the prompt list makes the
phase-2 loop throw. -/
theorem foldSteps_prompts_error (ow : Bool) (now : Nat) :
    ∀ (bps : List BackupPrompt) (st : RestoreSt),
      (∃ bp ∈ bps, ∃ x, bp.folder_id = some x ∧ mapGet st.map x = none) →
      ∃ e, foldSteps (restorePromptStep ow now) st bps = .error e ∧
        e.code = ErrorCode.INVALID_INPUT := by
  intro bps
  induction bps with
  | nil =>
    intro st h
    obtain ⟨bp, hm, _⟩ := h
    cases hm
  | cons b bs ih =>
    intro st h
    cases hstep : restorePromptStep ow now st b with
    | error e =>
      refine ⟨e, ?_, restorePromptStep_error_code ow now st b e hstep⟩
      unfold foldSteps
      rw [hstep]
    | ok st1 =>
      obtain ⟨bp, hm, x, hx, hmap⟩ := h
      rcases List.mem_cons.1 hm with rfl | hm2
      · exfalso
        unfold restorePromptStep at hstep
        rw [hx] at hstep
        have hstep2 : (match mapGet st.map x with
            | none => (Except.error ⟨ErrorCode.INVALID_INPUT,
                "Prompt references folder which was not found in backup"⟩ :
                Except MCPError RestoreSt)
            | some mf => restorePromptStep2 ow now st bp (some mf)) =
            Except.ok st1 := hstep
        rw [hmap] at hstep2
        cases hstep2
      · have hmap1 : mapGet st1.map x = none := by
          rw [restorePromptStep_map ow now st st1 b hstep]
          exact hmap
        obtain ⟨e, he, hc⟩ := ih st1 ⟨bp, hm2, x, hx, hmap1⟩
        refine ⟨e, ?_, hc⟩
        unfold foldSteps
        rw [hstep]
        exact he

/-- **C6.** `restoreBackup` is atomic: on any error the caller-visible
store is exactly the pre-call store; and when the folder phase succeeds
but some snapshot prompt's folder reference cannot be resolved through
the id-mapping table it built, the whole operation fails with
`INVALID_INPUT` and the store is rolled back. -/
theorem restoreBackup_atomic (db : DB) (F : List BackupFolder)
    (P : List BackupPrompt) (ow : Bool) (now : Nat) :
    (∀ e, restoreBackup db F P ow now = .error e →
      applyRestore db F P ow now = db) ∧
    (∀ st1, restoreFoldersPhase db F ow now = .ok st1 →
      (∃ bp ∈ P, ∃ x, bp.folder_id = some x ∧ mapGet st1.map x = none) →
      ∃ e, restoreBackup db F P ow now = .error e ∧
        e.code = ErrorCode.INVALID_INPUT ∧
        applyRestore db F P ow now = db) := by
  constructor
  · intro e he
    unfold applyRestore
    rw [he]
  · intro st1 h1 hbad
    obtain ⟨e, he, hc⟩ := foldSteps_prompts_error ow now P st1 hbad
    have hres : restoreBackup db F P ow now = .error e := by
      unfold restoreBackup
      rw [h1]
      show (match foldSteps (restorePromptStep ow now) st1 P with
        | .error e => (.error e : Except MCPError ((Nat × Nat) × DB))
        | .ok st2 =>
          .ok ((st2.importedFolders, st2.importedPrompts), st2.db)) = .error e
      rw [he]
    exact ⟨e, hres, hc, by unfold applyRestore; rw [hres]⟩

theorem restoreBackup_atomic_witness :
    applyRestore ⟨[], [], 0⟩ [] [⟨"P", "c", some 99, none, none, none⟩]
      false 0 = ⟨[], [], 0⟩ ∧
    (∃ e, restoreBackup ⟨[], [], 0⟩ []
        [⟨"P", "c", some 99, none, none, none⟩] false 0 = .error e ∧
      e.code = ErrorCode.INVALID_INPUT ∧
      applyRestore ⟨[], [], 0⟩ [] [⟨"P", "c", some 99, none, none, none⟩]
        false 0 = ⟨[], [], 0⟩) :=
  ⟨(restoreBackup_atomic ⟨[], [], 0⟩ [] [⟨"P", "c", some 99, none, none, none⟩]
      false 0).1
      ⟨ErrorCode.INVALID_INPUT,
        "Prompt references folder which was not found in backup"⟩ rfl,
    (restoreBackup_atomic ⟨[], [], 0⟩ [] [⟨"P", "c", some 99, none, none, none⟩]
      false 0).2 ⟨[], ⟨[], [], 0⟩, 0, 0⟩ rfl
      ⟨⟨"P", "c", some 99, none, none, none⟩, by simp, 99, rfl, rfl⟩⟩

/-! ## Replay lemmas (for C7) -/

theorem find?_append_left {α : Type} (p : α → Bool) :
    ∀ (l1 l2 : List α) (x : α),
      l1.find? p = some x → (l1 ++ l2).find? p = some x := by
  intro l1
  induction l1 with
  | nil => intro l2 x h; cases h
  | cons a t ih =>
    intro l2 x h
    cases hpa : p a with
    | true =>
      rw [List.find?_cons_of_pos _ hpa] at h
      rw [List.cons_append, List.find?_cons_of_pos _ hpa]
      exact h
    | false =>
      rw [List.find?_cons_of_neg _ (by simp [hpa])] at h
      rw [List.cons_append, List.find?_cons_of_neg _ (by simp [hpa])]
      exact ih l2 x h

theorem find?_append_right {α : Type} (p : α → Bool) :
    ∀ (l1 l2 : List α), l1.find? p = none →
      (l1 ++ l2).find? p = l2.find? p := by
  intro l1
  induction l1 with
  | nil => intro l2 _; rfl
  | cons a t ih =>
    intro l2 h
    cases hpa : p a with
    | true => rw [List.find?_cons_of_pos _ hpa] at h; cases h
    | false =>
      rw [List.find?_cons_of_neg _ (by simp [hpa])] at h
      rw [List.cons_append, List.find?_cons_of_neg _ (by simp [hpa])]
      exact ih l2 h

theorem find?_isSome_of_mem {α : Type} (p : α → Bool) {l : List α} {x : α}
    (hm : x ∈ l) (hp : p x = true) : ∃ y, l.find? p = some y := by
  induction l with
  | nil => cases hm
  | cons a t ih =>
    cases hpa : p a with
    | true => exact ⟨a, List.find?_cons_of_pos _ hpa⟩
    | false =>
      rcases List.mem_cons.1 hm with rfl | hm2
      · rw [hpa] at hp; cases hp
      · obtain ⟨y, hy⟩ := ih hm2
        exact ⟨y, by rw [List.find?_cons_of_neg _ (by simp [hpa])]; exact hy⟩

/-- `restoreFolderCreate` never throws and appends exactly one folder
row. -/
theorem restoreFolderCreate_ok (now : Nat) (st : RestoreSt)
    (bf : BackupFolder) (mp : Option Nat) :
    restoreFolderCreate now st bf mp =
      .ok { st with
        db := { st.db with
          folders := st.db.folders ++
            [⟨st.db.nextId, bf.name, mp, bf.emoji, bf.color, now, now⟩],
          nextId := st.db.nextId + 1 }
        map := (bf.id, st.db.nextId) :: st.map
        importedFolders := st.importedFolders + 1 } := by
  unfold restoreFolderCreate
  rw [if_neg]
  simp [folderExists, List.any_append]

/-- Shape of one `overwrite = false` folder iteration: the prompt table
is untouched and the folder table is only ever appended to. -/
theorem restoreFolderStep_false_shape (now : Nat) (st st1 : RestoreSt)
    (bf : BackupFolder) (h : restoreFolderStep false now st bf = .ok st1) :
    st1.db.prompts = st.db.prompts ∧
    ∃ Δ, st1.db.folders = st.db.folders ++ Δ := by
  have hstep2 : ∀ mp st0, restoreFolderStep2 false now st0 bf mp = .ok st1 →
      st1.db.prompts = st0.db.prompts ∧
      ∃ Δ, st1.db.folders = st0.db.folders ++ Δ := by
    intro mp st0 h2
    unfold restoreFolderStep2 at h2
    split at h2
    · rw [if_pos (show (!false) = true from rfl)] at h2
      rw [← Except.ok.inj h2]
      exact ⟨rfl, [], by simp⟩
    · rw [restoreFolderCreate_ok] at h2
      rw [← Except.ok.inj h2]
      exact ⟨rfl, [_], rfl⟩
  unfold restoreFolderStep at h
  split at h
  · split at h
    · cases h
    · exact hstep2 _ _ h
  · exact hstep2 _ _ h

/-- Fold version of `restoreFolderStep_false_shape`. -/
theorem foldF_false_append (now : Nat) :
    ∀ (bfs : List BackupFolder) (st st' : RestoreSt),
      foldSteps (restoreFolderStep false now) st bfs = .ok st' →
      st'.db.prompts = st.db.prompts ∧
      ∃ Δ, st'.db.folders = st.db.folders ++ Δ := by
  intro bfs
  induction bfs with
  | nil =>
    intro st st' h
    rw [← Except.ok.inj h]
    exact ⟨rfl, [], by simp⟩
  | cons bf bfs ih =>
    intro st st' h
    unfold foldSteps at h
    split at h
    · cases h
    · rename_i st1 hstep
      obtain ⟨hp1, Δ1, hf1⟩ := restoreFolderStep_false_shape now st st1 bf hstep
      obtain ⟨hp2, Δ2, hf2⟩ := ih st1 st' h
      exact ⟨hp2.trans hp1, Δ1 ++ Δ2, by rw [hf2, hf1, List.append_assoc]⟩

/-- Shape of one `overwrite = false` prompt iteration. -/
theorem restorePromptStep_false_shape (now : Nat) (st st1 : RestoreSt)
    (bp : BackupPrompt) (h : restorePromptStep false now st bp = .ok st1) :
    st1.map = st.map ∧ st1.db.folders = st.db.folders ∧
    st1.importedFolders = st.importedFolders ∧
    ∃ Δ, st1.db.prompts = st.db.prompts ++ Δ := by
  have hstep2 : ∀ mf st0, restorePromptStep2 false now st0 bp mf = .ok st1 →
      st1.map = st0.map ∧ st1.db.folders = st0.db.folders ∧
      st1.importedFolders = st0.importedFolders ∧
      ∃ Δ, st1.db.prompts = st0.db.prompts ++ Δ := by
    intro mf st0 h2
    unfold restorePromptStep2 at h2
    split at h2
    · rw [if_pos (show (!false) = true from rfl)] at h2
      rw [← Except.ok.inj h2]
      exact ⟨rfl, rfl, rfl, [], by simp⟩
    · rw [restorePromptCreate_ok] at h2
      rw [← Except.ok.inj h2]
      exact ⟨rfl, rfl, rfl, [_], rfl⟩
  unfold restorePromptStep at h
  split at h
  · split at h
    · cases h
    · exact hstep2 _ _ h
  · exact hstep2 _ _ h

/-- Fold version of `restorePromptStep_false_shape`. -/
theorem foldP_false_append (now : Nat) :
    ∀ (bps : List BackupPrompt) (st st' : RestoreSt),
      foldSteps (restorePromptStep false now) st bps = .ok st' →
      st'.map = st.map ∧ st'.db.folders = st.db.folders ∧
      ∃ Δ, st'.db.prompts = st.db.prompts ++ Δ := by
  intro bps
  induction bps with
  | nil =>
    intro st st' h
    rw [← Except.ok.inj h]
    exact ⟨rfl, rfl, [], by simp⟩
  | cons bp bps ih =>
    intro st st' h
    unfold foldSteps at h
    split at h
    · cases h
    · rename_i st1 hstep
      obtain ⟨hm1, hf1, _, Δ1, hp1⟩ := restorePromptStep_false_shape now st st1 bp hstep
      obtain ⟨hm2, hf2, Δ2, hp2⟩ := ih st1 st' h
      exact ⟨hm2.trans hm1, hf2.trans hf1, Δ1 ++ Δ2,
        by rw [hp2, hp1, List.append_assoc]⟩

/-! ## Subtree-deletion lemmas (for C5 and C9) -/

theorem parentOf_eq_none (l : List Folder) (c : Nat)
    (h : l.find? (fun f => f.id == c) = none) : parentOf l c = none := by
  unfold parentOf
  rw [h]

theorem parentOf_eq_some (l : List Folder) (c : Nat) (g : Folder)
    (h : l.find? (fun f => f.id == c) = some g) :
    parentOf l c = g.parentId := by
  unfold parentOf
  rw [h]

/-- With primary-key ids, `find?` by id returns exactly the member row. -/
theorem find?_id_unique :
    ∀ (l : List Folder), (l.map Folder.id).Nodup →
      ∀ g ∈ l, l.find? (fun f => f.id == g.id) = some g := by
  intro l
  induction l with
  | nil => intro _ g hg; cases hg
  | cons h t ih =>
    intro hN g hg
    have hN' := List.nodup_cons.1 (by rw [List.map_cons] at hN; exact hN)
    rcases List.mem_cons.1 hg with rfl | hg2
    · rw [List.find?_cons_of_pos _ (by simp)]
    · by_cases hhid : (h.id == g.id) = true
      · exfalso
        have heq : h.id = g.id := beq_iff_eq.mp hhid
        exact hN'.1 (heq ▸ List.mem_map_of_mem Folder.id hg2)
      · rw [List.find?_cons_of_neg _ (by simp only [hhid]; exact Bool.false_ne_true)]
        exact ih hN'.2 g hg2

theorem no_self_parent (folders : List Folder) (c : Nat)
    (hA : Acyclic folders) (h : parentOf folders c = some c) : False := by
  obtain ⟨n, hn⟩ := hA c
  have key : ∀ k, chase folders k (some c) = false := by
    intro k
    induction k with
    | zero => rfl
    | succ k ih => rw [chase_succ, h]; exact ih
  rw [key n] at hn
  cases hn

/-- In a sublist of a table with unique ids, each id's parent is either
the same as in the full table or gone. -/
theorem parentOf_sublist (l2 l : List Folder) (hs : l2.Sublist l)
    (hN : (l.map Folder.id).Nodup) (c : Nat) :
    parentOf l2 c = parentOf l c ∨ parentOf l2 c = none := by
  cases hfind : l2.find? (fun f => f.id == c) with
  | none => exact Or.inr (parentOf_eq_none l2 c hfind)
  | some g =>
    left
    have hg2 : g ∈ l2 := List.mem_of_find?_eq_some hfind
    have hgid : g.id = c := by simpa using List.find?_some hfind
    have hgl : g ∈ l := hs.subset hg2
    have hfl : l.find? (fun f => f.id == c) = some g := by
      rw [← hgid]
      exact find?_id_unique l hN g hgl
    rw [parentOf_eq_some l2 c g hfind, parentOf_eq_some l c g hfl]

theorem chase_of_dichotomy (l2 l : List Folder)
    (hd : ∀ c, parentOf l2 c = parentOf l c ∨ parentOf l2 c = none) :
    ∀ (n : Nat) (o : Option Nat), chase l n o = true → chase l2 n o = true := by
  intro n
  induction n with
  | zero =>
    intro o h
    cases o with
    | none => exact chase_none _ 0
    | some c => exact absurd h (by simp [chase])
  | succ n ih =>
    intro o h
    cases o with
    | none => exact chase_none _ _
    | some c =>
      rw [chase_succ] at h ⊢
      rcases hd c with hq | hq
      · rw [hq]; exact ih _ h
      · rw [hq]; exact chase_none _ _

theorem OnChain_of_dichotomy (l2 l : List Folder)
    (hd : ∀ c, parentOf l2 c = parentOf l c ∨ parentOf l2 c = none) :
    ∀ {n : Nat} {o : Option Nat} {x : Nat},
      onChain l2 n o x = true → OnChain l o x := by
  intro n
  induction n with
  | zero =>
    intro o x h
    cases o with
    | none => rw [onChain_none] at h; cases h
    | some c => exact absurd h (by simp [onChain])
  | succ n ih =>
    intro o x h
    cases o with
    | none => rw [onChain_none] at h; cases h
    | some c =>
      rw [onChain_succ, Bool.or_eq_true] at h
      rcases h with h1 | h2
      · exact ⟨1, by rw [onChain_succ]; simp [h1]⟩
      · rcases hd c with hq | hq
        · rw [hq] at h2
          exact OnChain_of_parent l c x (ih h2)
        · rw [hq, onChain_none] at h2
          cases h2

theorem OnChain_trans' (l : List Folder) {o : Option Nat} {x y : Nat}
    (h1 : OnChain l o x) (h2 : OnChain l (some x) y) : OnChain l o y := by
  obtain ⟨n, hn⟩ := h1
  exact OnChain_trans l hn h2

/-- A table row whose `parentId` is `some fid` has `fid` on its chain. -/
theorem child_OnChain (l : List Folder) (fid : Nat)
    (hN : (l.map Folder.id).Nodup) {g : Folder} (hg : g ∈ l)
    (hp : g.parentId = some fid) : OnChain l (some g.id) fid := by
  refine ⟨2, ?_⟩
  rw [onChain_succ, parentOf_eq_some l g.id g (find?_id_unique l hN g hg), hp,
    onChain_succ]
  simp

/-- Chain decomposition: a chain reaching `fid` either starts there or
passes through a table row whose parent is `fid`. -/
theorem OnChain_to_children (l : List Folder) (fid : Nat) :
    ∀ (n x : Nat), onChain l n (some x) fid = true →
      x = fid ∨ ∃ g ∈ l, g.parentId = some fid ∧ OnChain l (some x) g.id := by
  intro n
  induction n with
  | zero => intro x h; exact absurd h (by simp [onChain])
  | succ n ih =>
    intro x h
    rw [onChain_succ, Bool.or_eq_true] at h
    rcases h with h1 | h2
    · exact Or.inl (beq_iff_eq.mp h1).symm
    · cases hpx : parentOf l x with
      | none => rw [hpx, onChain_none] at h2; cases h2
      | some z =>
        rw [hpx] at h2
        obtain ⟨g, hfind, hgpar⟩ : ∃ g, l.find? (fun f => f.id == x) = some g ∧
            g.parentId = some z := by
          unfold parentOf at hpx
          cases hfind : l.find? (fun f => f.id == x) with
          | none => rw [hfind] at hpx; cases hpx
          | some g => rw [hfind] at hpx; exact ⟨g, rfl, hpx⟩
        have hgid : g.id = x := by simpa using List.find?_some hfind
        have hgl : g ∈ l := List.mem_of_find?_eq_some hfind
        by_cases hz : z = fid
        · subst hz
          exact Or.inr ⟨g, hgl, hgpar, hgid ▸ OnChain_self l g.id⟩
        · rcases ih z h2 with he | ⟨g', hg'l, hg'p, hoc⟩
          · exact absurd he hz
          · refine Or.inr ⟨g', hg'l, hg'p, ?_⟩
            exact OnChain_of_parent l x g'.id (by rw [hpx]; exact hoc)

/-- A chain in the full table that avoids the deleted subtree survives
into the pruned table. -/
theorem onChain_transfer (l l2 : List Folder) (fid : Nat)
    (hN : (l.map Folder.id).Nodup)
    (hiff : ∀ g : Folder, g ∈ l2 ↔ g ∈ l ∧ ¬ OnChain l (some g.id) fid) :
    ∀ (n x w : Nat), onChain l n (some x) w = true →
      ¬ OnChain l (some x) fid → OnChain l2 (some x) w := by
  intro n
  induction n with
  | zero => intro x w h _; exact absurd h (by simp [onChain])
  | succ n ih =>
    intro x w h hno
    rw [onChain_succ, Bool.or_eq_true] at h
    rcases h with h1 | h2
    · exact ⟨1, by rw [onChain_succ]; simp [h1]⟩
    · cases hpx : parentOf l x with
      | none => rw [hpx, onChain_none] at h2; cases h2
      | some z =>
        rw [hpx] at h2
        obtain ⟨g, hfind, hgpar⟩ : ∃ g, l.find? (fun f => f.id == x) = some g ∧
            g.parentId = some z := by
          unfold parentOf at hpx
          cases hfind : l.find? (fun f => f.id == x) with
          | none => rw [hfind] at hpx; cases hpx
          | some g => rw [hfind] at hpx; exact ⟨g, rfl, hpx⟩
        have hgid : g.id = x := by simpa using List.find?_some hfind
        have hgl : g ∈ l := List.mem_of_find?_eq_some hfind
        have hg2 : g ∈ l2 := (hiff g).mpr ⟨hgl, by rw [hgid]; exact hno⟩
        have hfind2 : l2.find? (fun f => f.id == x) = some g := by
          obtain ⟨y, hy⟩ := find?_isSome_of_mem (fun f => f.id == x) hg2
            (by simp [hgid])
          have hyl : y ∈ l := ((hiff y).mp (List.mem_of_find?_eq_some hy)).1
          have hyid : y.id = x := by simpa using List.find?_some hy
          have hyg : y = g := by
            have hu1 := find?_id_unique l hN y hyl
            have hu2 := find?_id_unique l hN g hgl
            rw [hyid] at hu1
            rw [hgid] at hu2
            exact Option.some.inj (hu1.symm.trans hu2)
          rw [← hyg]
          exact hy
        have hno_z : ¬ OnChain l (some z) fid := by
          intro hz
          exact hno (OnChain_of_parent l x fid (by rw [hpx]; exact hz))
        obtain ⟨m, hm⟩ := ih z w h2 hno_z
        refine ⟨m + 1, ?_⟩
        rw [onChain_succ, parentOf_eq_some l2 x g hfind2, hgpar]
        simp [hm]

/-- Correctness and termination of the cascading delete: on an acyclic
table with unique ids, `deleteSubtrees` completes within fuel
`|cover| + 1` for any cover `L` of the worklist's combined descendant
sets, and removes exactly the rows whose chain reaches some worklist
folder (and the prompts contained in them). -/
theorem deleteSubtrees_spec :
    ∀ (fuel : Nat) (db : DB) (ws L : List Nat),
      Acyclic db.folders →
      (db.folders.map Folder.id).Nodup →
      ws.Nodup →
      (∀ w ∈ ws, w ∈ L) →
      (∀ w ∈ ws, ∀ f ∈ db.folders,
        OnChain db.folders (some f.id) w → f.id ∈ L) →
      L.Nodup →
      L.length + 1 ≤ fuel →
      ∃ db', deleteSubtrees fuel db ws = some db' ∧
        db'.nextId = db.nextId ∧
        db'.folders.Sublist db.folders ∧
        db'.prompts.Sublist db.prompts ∧
        (∀ f, f ∈ db'.folders ↔ f ∈ db.folders ∧
          ¬ ∃ w ∈ ws, OnChain db.folders (some f.id) w) ∧
        (∀ p, p ∈ db'.prompts ↔ p ∈ db.prompts ∧
          ¬ ∃ w ∈ ws, ∃ x, p.folderId = some x ∧
              OnChain db.folders (some x) w) := by
  intro fuel
  induction fuel with
  | zero =>
    intro db ws L _ _ _ _ _ _ hlen
    omega
  | succ fuel ih =>
    intro db ws L hA hN hws hwsL hcov hLN hlen
    cases ws with
    | nil =>
      refine ⟨db, rfl, rfl, List.Sublist.refl _, List.Sublist.refl _, ?_, ?_⟩
      · intro f
        exact ⟨fun h => ⟨h, fun ⟨w, hw, _⟩ => absurd hw (List.not_mem_nil w)⟩,
          fun h => h.1⟩
      · intro p
        exact ⟨fun h => ⟨h, fun ⟨w, hw, _⟩ => absurd hw (List.not_mem_nil w)⟩,
          fun h => h.1⟩
    | cons fid rest =>
      have hfidL : fid ∈ L := hwsL fid (List.mem_cons_self fid rest)
      set children : List Nat :=
        (db.folders.filter (fun f => f.parentId == some fid)).map Folder.id
        with hch
      have hchN : children.Nodup := by
        have hsub : children.Sublist (db.folders.map Folder.id) :=
          (List.filter_sublist _).map Folder.id
        exact hsub.nodup hN
      have hchain_child : ∀ c ∈ children, OnChain db.folders (some c) fid := by
        intro c hc
        obtain ⟨g, hgf, hgid⟩ := List.mem_map.1 hc
        obtain ⟨hgl, hgp⟩ := List.mem_filter.1 hgf
        have hgp' : g.parentId = some fid := by simpa using hgp
        rw [← hgid]
        exact child_OnChain db.folders fid hN hgl hgp'
      have hchild_ne : ∀ c ∈ children, c ≠ fid := by
        intro c hc hceq
        obtain ⟨g, hgf, hgid⟩ := List.mem_map.1 hc
        obtain ⟨hgl, hgp⟩ := List.mem_filter.1 hgf
        have hgp' : g.parentId = some fid := by simpa using hgp
        have hpo : parentOf db.folders c = some c := by
          rw [← hgid, parentOf_eq_some db.folders g.id g
            (find?_id_unique db.folders hN g hgl), hgp', hgid, hceq]
        exact no_self_parent db.folders c hA hpo
      have hLerase : (L.erase fid).Nodup := hLN.erase fid
      have hlen' : (L.erase fid).length + 1 ≤ fuel := by
        rw [List.length_erase_of_mem hfidL]
        have : 1 ≤ L.length := List.length_pos.2 (List.ne_nil_of_mem hfidL)
        omega
      have hchL : ∀ c ∈ children, c ∈ L.erase fid := by
        intro c hc
        obtain ⟨g, hgf, hgid⟩ := List.mem_map.1 hc
        obtain ⟨hgl, _⟩ := List.mem_filter.1 hgf
        have hcL : c ∈ L := by
          rw [← hgid]
          exact hcov fid (List.mem_cons_self fid rest) g hgl
            (hgid ▸ hchain_child c hc)
        exact (List.mem_erase_of_ne (hchild_ne c hc)).mpr hcL
      have hchCov : ∀ c ∈ children, ∀ f ∈ db.folders,
          OnChain db.folders (some f.id) c → f.id ∈ L.erase fid := by
        intro c hc f hf hoc
        have hocfid : OnChain db.folders (some f.id) fid :=
          OnChain_trans' db.folders hoc (hchain_child c hc)
        have hfL : f.id ∈ L := hcov fid (List.mem_cons_self fid rest) f hf hocfid
        have hfne : f.id ≠ fid := by
          intro he
          have h1 : OnChain db.folders (some fid) c := he ▸ hoc
          exact hchild_ne c hc
            (OnChain_antisymm db.folders fid c (hA fid) h1
              (hchain_child c hc)).symm
        exact (List.mem_erase_of_ne hfne).mpr hfL
      obtain ⟨db1, hdel1, hnext1, hsubF1, hsubP1, hiffF1, hiffP1⟩ :=
        ih db children (L.erase fid) hA hN hchN hchL hchCov hLerase hlen'
      set db2 : DB := { db1 with
        prompts := db1.prompts.filter (fun p => p.folderId != some fid),
        folders := db1.folders.filter (fun f => f.id != fid) } with hdb2
      have hF2 : ∀ f : Folder, f ∈ db2.folders ↔ f ∈ db1.folders ∧ f.id ≠ fid := by
        intro f
        rw [hdb2]
        simp [List.mem_filter]
      have hP2 : ∀ p : Prompt, p ∈ db2.prompts ↔
          p ∈ db1.prompts ∧ p.folderId ≠ some fid := by
        intro p
        rw [hdb2]
        simp [List.mem_filter]
      have hDEC : ∀ x : Nat, OnChain db.folders (some x) fid ↔
          (x = fid ∨ ∃ c ∈ children, OnChain db.folders (some x) c) := by
        intro x
        constructor
        · rintro ⟨n, hn⟩
          rcases OnChain_to_children db.folders fid n x hn with h | ⟨g, hgl, hgp, hoc⟩
          · exact Or.inl h
          · refine Or.inr ⟨g.id, ?_, hoc⟩
            rw [hch]
            exact List.mem_map_of_mem Folder.id
              (List.mem_filter.2 ⟨hgl, by simp [hgp]⟩)
        · rintro (rfl | ⟨c, hc, hoc⟩)
          · exact OnChain_self db.folders x
          · exact OnChain_trans' db.folders hoc (hchain_child c hc)
      have hF2full : ∀ f : Folder, f ∈ db2.folders ↔
          f ∈ db.folders ∧ ¬ OnChain db.folders (some f.id) fid := by
        intro f
        rw [hF2 f, hiffF1 f]
        constructor
        · rintro ⟨⟨hfdb, hnch⟩, hne⟩
          refine ⟨hfdb, ?_⟩
          intro hoc
          rcases (hDEC f.id).mp hoc with h | ⟨c, hc, hoc2⟩
          · exact hne h
          · exact hnch ⟨c, hc, hoc2⟩
        · rintro ⟨hfdb, hno⟩
          refine ⟨⟨hfdb, ?_⟩, ?_⟩
          · rintro ⟨c, hc, hoc⟩
            exact hno ((hDEC f.id).mpr (Or.inr ⟨c, hc, hoc⟩))
          · intro hfe
            exact hno ((hDEC f.id).mpr (Or.inl hfe))
      have hP2full : ∀ p : Prompt, p ∈ db2.prompts ↔
          p ∈ db.prompts ∧ ¬ ∃ x, p.folderId = some x ∧
            OnChain db.folders (some x) fid := by
        intro p
        rw [hP2 p, hiffP1 p]
        constructor
        · rintro ⟨⟨hpdb, hnch⟩, hne⟩
          refine ⟨hpdb, ?_⟩
          rintro ⟨x, hpx, hoc⟩
          rcases (hDEC x).mp hoc with rfl | ⟨c, hc, hoc2⟩
          · exact hne hpx
          · exact hnch ⟨c, hc, x, hpx, hoc2⟩
        · rintro ⟨hpdb, hno⟩
          refine ⟨⟨hpdb, ?_⟩, ?_⟩
          · rintro ⟨c, hc, x, hpx, hoc⟩
            exact hno ⟨x, hpx, (hDEC x).mpr (Or.inr ⟨c, hc, hoc⟩)⟩
          · intro hpe
            exact hno ⟨fid, hpe, OnChain_self db.folders fid⟩
      have hsubF2 : db2.folders.Sublist db.folders :=
        (List.filter_sublist _).trans hsubF1
      have hsubP2 : db2.prompts.Sublist db.prompts :=
        (List.filter_sublist _).trans hsubP1
      have hN2 : (db2.folders.map Folder.id).Nodup :=
        (hsubF2.map Folder.id).nodup hN
      have hdich2 : ∀ c, parentOf db2.folders c = parentOf db.folders c ∨
          parentOf db2.folders c = none :=
        fun c => parentOf_sublist db2.folders db.folders hsubF2 hN c
      have hA2 : Acyclic db2.folders := by
        intro c
        obtain ⟨n, hn⟩ := hA c
        exact ⟨n, chase_of_dichotomy _ _ hdich2 n _ hn⟩
      have hrestN : rest.Nodup := (List.nodup_cons.1 hws).2
      have hfid_notin : fid ∉ rest := (List.nodup_cons.1 hws).1
      have hrestL : ∀ w ∈ rest, w ∈ L.erase fid := by
        intro w hw
        have hwne : w ≠ fid := by
          intro he
          rw [he] at hw
          exact hfid_notin hw
        exact (List.mem_erase_of_ne hwne).mpr
          (hwsL w (List.mem_cons_of_mem fid hw))
      have hrestCov : ∀ w ∈ rest, ∀ f ∈ db2.folders,
          OnChain db2.folders (some f.id) w → f.id ∈ L.erase fid := by
        intro w hw f hf2 hoc2
        obtain ⟨hfdb, hnofid⟩ := (hF2full f).mp hf2
        have hocl : OnChain db.folders (some f.id) w := by
          obtain ⟨n, hn⟩ := hoc2
          exact OnChain_of_dichotomy db2.folders db.folders hdich2 hn
        have hfL : f.id ∈ L := hcov w (List.mem_cons_of_mem fid hw) f hfdb hocl
        have hfne : f.id ≠ fid := by
          intro he
          exact hnofid (by rw [he]; exact OnChain_self db.folders fid)
        exact (List.mem_erase_of_ne hfne).mpr hfL
      obtain ⟨db3, hdel3, hnext3, hsubF3, hsubP3, hiffF3, hiffP3⟩ :=
        ih db2 rest (L.erase fid) hA2 hN2 hrestN hrestL hrestCov hLerase hlen'
      refine ⟨db3, ?_, ?_, hsubF3.trans hsubF2, hsubP3.trans hsubP2, ?_, ?_⟩
      · show (match deleteSubtrees fuel db children with
          | none => none
          | some db1 => deleteSubtrees fuel
              { db1 with
                prompts := db1.prompts.filter (fun p => p.folderId != some fid),
                folders := db1.folders.filter (fun f => f.id != fid) }
              rest) = some db3
        rw [hdel1]
        exact hdel3
      · rw [hnext3, hdb2]
        exact hnext1
      · intro f
        rw [hiffF3 f, hF2full f]
        constructor
        · rintro ⟨⟨hfdb, hnofid⟩, hnorest⟩
          refine ⟨hfdb, ?_⟩
          rintro ⟨w, hw, hoc⟩
          rcases List.mem_cons.1 hw with rfl | hw2
          · exact hnofid hoc
          · obtain ⟨n, hn⟩ := hoc
            exact hnorest ⟨w, hw2, onChain_transfer db.folders db2.folders fid
              hN hF2full n f.id w hn hnofid⟩
        · rintro ⟨hfdb, hno⟩
          have hnofid : ¬ OnChain db.folders (some f.id) fid :=
            fun h => hno ⟨fid, List.mem_cons_self fid rest, h⟩
          refine ⟨⟨hfdb, hnofid⟩, ?_⟩
          rintro ⟨w, hw2, hoc2⟩
          obtain ⟨n, hn⟩ := hoc2
          exact hno ⟨w, List.mem_cons_of_mem fid hw2,
            OnChain_of_dichotomy db2.folders db.folders hdich2 hn⟩
      · intro p
        rw [hiffP3 p, hP2full p]
        constructor
        · rintro ⟨⟨hpdb, hnofid⟩, hnorest⟩
          refine ⟨hpdb, ?_⟩
          rintro ⟨w, hw, x, hpx, hoc⟩
          rcases List.mem_cons.1 hw with rfl | hw2
          · exact hnofid ⟨x, hpx, hoc⟩
          · obtain ⟨n, hn⟩ := hoc
            have hnox : ¬ OnChain db.folders (some x) fid :=
              fun h => hnofid ⟨x, hpx, h⟩
            exact hnorest ⟨w, hw2, x, hpx, onChain_transfer db.folders
              db2.folders fid hN hF2full n x w hn hnox⟩
        · rintro ⟨hpdb, hno⟩
          have hnofid : ¬ ∃ x, p.folderId = some x ∧
              OnChain db.folders (some x) fid :=
            fun ⟨x, hpx, h⟩ => hno ⟨fid, List.mem_cons_self fid rest, x, hpx, h⟩
          refine ⟨⟨hpdb, hnofid⟩, ?_⟩
          rintro ⟨w, hw2, x, hpx, hoc2⟩
          obtain ⟨n, hn⟩ := hoc2
          exact hno ⟨w, List.mem_cons_of_mem fid hw2, x, hpx,
            OnChain_of_dichotomy db2.folders db.folders hdich2 hn⟩

/-- `recursivelyDeleteFolder` with the fuel `deleteFolder` passes is
total on acyclic unique-id stores, and removes exactly the subtree of
`fid`. -/
theorem recursivelyDeleteFolder_spec (db : DB) (fid : Nat)
    (hA : Acyclic db.folders)
    (hN : (db.folders.map Folder.id).Nodup) :
    ∃ db', recursivelyDeleteFolder (db.folders.length + 2) db fid = some db' ∧
      db'.nextId = db.nextId ∧
      db'.folders.Sublist db.folders ∧
      db'.prompts.Sublist db.prompts ∧
      (∀ f, f ∈ db'.folders ↔ f ∈ db.folders ∧
        ¬ OnChain db.folders (some f.id) fid) ∧
      (∀ p, p ∈ db'.prompts ↔ p ∈ db.prompts ∧
        ¬ ∃ x, p.folderId = some x ∧ OnChain db.folders (some x) fid) := by
  have hLN : (if fid ∈ (db.folders.map Folder.id).dedup
      then (db.folders.map Folder.id).dedup
      else fid :: (db.folders.map Folder.id).dedup).Nodup := by
    by_cases hmem : fid ∈ (db.folders.map Folder.id).dedup
    · rw [if_pos hmem]; exact List.nodup_dedup _
    · rw [if_neg hmem]; exact List.nodup_cons.2 ⟨hmem, List.nodup_dedup _⟩
  have hfidL : fid ∈ (if fid ∈ (db.folders.map Folder.id).dedup
      then (db.folders.map Folder.id).dedup
      else fid :: (db.folders.map Folder.id).dedup) := by
    by_cases hmem : fid ∈ (db.folders.map Folder.id).dedup
    · rw [if_pos hmem]; exact hmem
    · rw [if_neg hmem]; exact List.mem_cons_self _ _
  have hidsL : ∀ x ∈ db.folders.map Folder.id,
      x ∈ (if fid ∈ (db.folders.map Folder.id).dedup
        then (db.folders.map Folder.id).dedup
        else fid :: (db.folders.map Folder.id).dedup) := by
    intro x hx
    by_cases hmem : fid ∈ (db.folders.map Folder.id).dedup
    · rw [if_pos hmem]; exact List.mem_dedup.2 hx
    · rw [if_neg hmem]; exact List.mem_cons_of_mem _ (List.mem_dedup.2 hx)
  have hlenL : (if fid ∈ (db.folders.map Folder.id).dedup
      then (db.folders.map Folder.id).dedup
      else fid :: (db.folders.map Folder.id).dedup).length + 1 ≤
      db.folders.length + 2 := by
    have h1 : (db.folders.map Folder.id).dedup.length ≤
        (db.folders.map Folder.id).length :=
      (List.dedup_sublist _).length_le
    have h2 : (db.folders.map Folder.id).length = db.folders.length :=
      List.length_map _ _
    by_cases hmem : fid ∈ (db.folders.map Folder.id).dedup
    · rw [if_pos hmem]; omega
    · rw [if_neg hmem]
      simp only [List.length_cons]
      omega
  obtain ⟨db1, hdel, hnext, hsF, hsP, hiffF, hiffP⟩ :=
    deleteSubtrees_spec (db.folders.length + 2) db [fid] _ hA hN
      (List.nodup_singleton fid)
      (by intro w hw; rw [List.mem_singleton.1 hw]; exact hfidL)
      (by intro w _ f hf _; exact hidsL f.id (List.mem_map_of_mem Folder.id hf))
      hLN hlenL
  refine ⟨db1, hdel, hnext, hsF, hsP, ?_, ?_⟩
  · intro f
    rw [hiffF f]
    constructor
    · rintro ⟨hfdb, hno⟩
      exact ⟨hfdb, fun hoc => hno ⟨fid, List.mem_singleton_self fid, hoc⟩⟩
    · rintro ⟨hfdb, hno⟩
      refine ⟨hfdb, ?_⟩
      rintro ⟨w, hw, hoc⟩
      rw [List.mem_singleton.1 hw] at hoc
      exact hno hoc
  · intro p
    rw [hiffP p]
    constructor
    · rintro ⟨hpdb, hno⟩
      exact ⟨hpdb, fun ⟨x, hpx, hoc⟩ =>
        hno ⟨fid, List.mem_singleton_self fid, x, hpx, hoc⟩⟩
    · rintro ⟨hpdb, hno⟩
      refine ⟨hpdb, ?_⟩
      rintro ⟨w, hw, x, hpx, hoc⟩
      rw [List.mem_singleton.1 hw] at hoc
      exact hno ⟨x, hpx, hoc⟩

/-- **C5.** Recursive folder deletion removes exactly the subtree: on an
acyclic store with unique ids, `deleteFolder(fid, recursive := true)`
succeeds and the resulting store keeps precisely the folders whose
parent chain does not reach `fid` and the prompts not contained in any
removed folder — as sublists of the original tables, so nothing outside
the subtree is added, removed or modified (all of it inside the single
enclosing transaction). -/
theorem deleteFolder_recursive_exact (db : DB) (fid : Nat)
    (hA : Acyclic db.folders)
    (hN : (db.folders.map Folder.id).Nodup)
    (hex : folderExists db fid = true) :
    ∃ db', deleteFolder db fid true = .ok db' ∧
      db'.nextId = db.nextId ∧
      db'.folders.Sublist db.folders ∧
      db'.prompts.Sublist db.prompts ∧
      (∀ f, f ∈ db'.folders ↔ f ∈ db.folders ∧
        ¬ OnChain db.folders (some f.id) fid) ∧
      (∀ p, p ∈ db'.prompts ↔ p ∈ db.prompts ∧
        ¬ ∃ x, p.folderId = some x ∧ OnChain db.folders (some x) fid) := by
  obtain ⟨db1, hdel, hnext, hsF, hsP, hiffF, hiffP⟩ :=
    recursivelyDeleteFolder_spec db fid hA hN
  refine ⟨{ db1 with folders := db1.folders.filter (fun f => f.id != fid) },
    ?_, hnext, (List.filter_sublist _).trans hsF, hsP, ?_, hiffP⟩
  · unfold deleteFolder
    rw [if_neg (by simp [hex]), if_neg (by simp)]
    show (match recursivelyDeleteFolder (db.folders.length + 2) db fid with
      | none => (.error ⟨ErrorCode.DATABASE_ERROR, "recursion depth exhausted"⟩ :
          Except MCPError DB)
      | some db1 =>
        if folderExists
            { db1 with folders := db1.folders.filter (fun f => f.id != fid) }
            fid then
          .error ⟨ErrorCode.DATABASE_ERROR,
            "Failed to verify folder was deleted (read-back check failed)"⟩
        else .ok { db1 with
          folders := db1.folders.filter (fun f => f.id != fid) }) = _
    have hverify : folderExists
        { db1 with folders := db1.folders.filter (fun f => f.id != fid) }
        fid = false := by
      cases hfe : folderExists
          { db1 with folders := db1.folders.filter (fun f => f.id != fid) } fid
      · rfl
      · exfalso
        obtain ⟨f, hfm, hfid⟩ := List.any_eq_true.1 hfe
        have hf1 : f ∈ db1.folders := (List.mem_filter.1 hfm).1
        have := (hiffF f).mp hf1
        exact this.2 (by rw [beq_iff_eq.mp hfid]; exact OnChain_self db.folders fid)
    simp [hdel, hverify]
  · intro f
    rw [show ({ db1 with
        folders := db1.folders.filter (fun f => f.id != fid) } : DB).folders =
      db1.folders.filter (fun f => f.id != fid) from rfl]
    rw [List.mem_filter]
    rw [hiffF f]
    constructor
    · rintro ⟨⟨hfdb, hno⟩, _⟩
      exact ⟨hfdb, hno⟩
    · rintro ⟨hfdb, hno⟩
      refine ⟨⟨hfdb, hno⟩, ?_⟩
      simp only [bne_iff_ne, ne_eq]
      intro he
      exact hno (by rw [he]; exact OnChain_self db.folders fid)

theorem deleteFolder_recursive_exact_witness :
    ∃ db', deleteFolder
        (⟨[⟨1, "A", none, none, none, 0, 0⟩, ⟨2, "B", some 1, none, none, 0, 0⟩,
           ⟨3, "C", none, none, none, 0, 0⟩],
          [⟨7, "p1", "c1", some 2, none, none, none, 0, 0⟩,
           ⟨8, "p2", "c2", some 3, none, none, none, 0, 0⟩], 50⟩ : DB)
        1 true = .ok db' ∧
      db'.nextId = 50 ∧
      db'.folders.Sublist [⟨1, "A", none, none, none, 0, 0⟩,
        ⟨2, "B", some 1, none, none, 0, 0⟩, ⟨3, "C", none, none, none, 0, 0⟩] ∧
      db'.prompts.Sublist [⟨7, "p1", "c1", some 2, none, none, none, 0, 0⟩,
        ⟨8, "p2", "c2", some 3, none, none, none, 0, 0⟩] ∧
      (∀ f, f ∈ db'.folders ↔ f ∈ ([⟨1, "A", none, none, none, 0, 0⟩,
          ⟨2, "B", some 1, none, none, 0, 0⟩,
          ⟨3, "C", none, none, none, 0, 0⟩] : List Folder) ∧
        ¬ OnChain [⟨1, "A", none, none, none, 0, 0⟩,
          ⟨2, "B", some 1, none, none, 0, 0⟩,
          ⟨3, "C", none, none, none, 0, 0⟩] (some f.id) 1) ∧
      (∀ p, p ∈ db'.prompts ↔ p ∈ ([⟨7, "p1", "c1", some 2, none, none, none, 0, 0⟩,
          ⟨8, "p2", "c2", some 3, none, none, none, 0, 0⟩] : List Prompt) ∧
        ¬ ∃ x, p.folderId = some x ∧ OnChain [⟨1, "A", none, none, none, 0, 0⟩,
          ⟨2, "B", some 1, none, none, 0, 0⟩,
          ⟨3, "C", none, none, none, 0, 0⟩] (some x) 1) :=
  deleteFolder_recursive_exact
    ⟨[⟨1, "A", none, none, none, 0, 0⟩, ⟨2, "B", some 1, none, none, 0, 0⟩,
      ⟨3, "C", none, none, none, 0, 0⟩],
     [⟨7, "p1", "c1", some 2, none, none, none, 0, 0⟩,
      ⟨8, "p2", "c2", some 3, none, none, none, 0, 0⟩], 50⟩ 1
    (Acyclic_of_all _ (by decide)) (by decide) (by decide)

/-- **C9 (amended).** The cycle-detection walk is bounded by its
explicit visited set and completes on every folder-table state,
pathological cyclic hierarchies included; the cascading delete has no
visited set and its recursion is bounded only on acyclic stores, where
it completes within the recursion budget `folders.length + 2` that
`deleteFolder` passes. -/
theorem traversals_bounded (folders : List Folder) (target : Nat)
    (pp : Option Nat) (db : DB) (fid : Nat)
    (hA : Acyclic db.folders)
    (hN : (db.folders.map Folder.id).Nodup) :
    (wouldCreateCycle folders target pp).isSome = true ∧
    (recursivelyDeleteFolder (db.folders.length + 2) db fid).isSome = true := by
  refine ⟨wouldCreateCycle_isSome folders target pp, ?_⟩
  obtain ⟨db1, hdel, _⟩ := recursivelyDeleteFolder_spec db fid hA hN
  rw [hdel]
  rfl

theorem traversals_bounded_witness :
    (wouldCreateCycle c9CyclicDB.folders 3 (some 1)).isSome = true ∧
    (recursivelyDeleteFolder
      ((⟨[⟨1, "A", none, none, none, 0, 0⟩], [], 9⟩ : DB).folders.length + 2)
      ⟨[⟨1, "A", none, none, none, 0, 0⟩], [], 9⟩ 1).isSome = true :=
  traversals_bounded c9CyclicDB.folders 3 (some 1)
    ⟨[⟨1, "A", none, none, none, 0, 0⟩], [], 9⟩ 1
    (Acyclic_of_all _ (by decide)) (by decide)

theorem foldSteps_cons {β : Type}
    (step : RestoreSt → β → Except MCPError RestoreSt)
    (st : RestoreSt) (b : β) (bs : List β) :
    foldSteps step st (b :: bs) =
      (match step st b with
       | .error e => .error e
       | .ok st' => foldSteps step st' bs) := rfl

/-- Replaying one `overwrite = false` folder iteration against a store
that extends the iteration's post-state finds a live match (either the
one the first run found, or the one it created) and therefore skips,
recording exactly the same id mapping. -/
theorem restoreFolderStep2_replay (now now2 : Nat) (stA stA1 stB : RestoreSt)
    (bf : BackupFolder) (mp : Option Nat) (Δr : List Folder)
    (h2 : restoreFolderStep2 false now stA bf mp = .ok stA1)
    (hmap : stB.map = stA.map)
    (hext : stB.db.folders = stA1.db.folders ++ Δr) :
    restoreFolderStep2 false now2 stB bf mp =
      .ok { stB with map := stA1.map } := by
  unfold restoreFolderStep2 at h2
  split at h2
  · rename_i existing hfoundA
    rw [if_pos (show (!false) = true from rfl)] at h2
    have hA1 : stA1 = { stA with map := (bf.id, existing.id) :: stA.map } :=
      (Except.ok.inj h2).symm
    have hfoldersA1 : stA1.db.folders = stA.db.folders := by rw [hA1]
    have hfoundB : findFolderByNameAndParent stB.db bf.name mp = some existing := by
      unfold findFolderByNameAndParent at hfoundA ⊢
      have : stB.db.folders = stA.db.folders ++ Δr := by
        rw [hext, hfoldersA1]
      rw [this]
      exact find?_append_left _ _ _ _ hfoundA
    unfold restoreFolderStep2
    simp only [hfoundB]
    rw [if_pos (show (!false) = true from rfl), hA1, hmap]
  · rename_i hnotfoundA
    rw [restoreFolderCreate_ok] at h2
    have hA1 : stA1 = { stA with
        db := { stA.db with
          folders := stA.db.folders ++
            [⟨stA.db.nextId, bf.name, mp, bf.emoji, bf.color, now, now⟩],
          nextId := stA.db.nextId + 1 }
        map := (bf.id, stA.db.nextId) :: stA.map
        importedFolders := stA.importedFolders + 1 } := (Except.ok.inj h2).symm
    have hfoundB : findFolderByNameAndParent stB.db bf.name mp =
        some ⟨stA.db.nextId, bf.name, mp, bf.emoji, bf.color, now, now⟩ := by
      unfold findFolderByNameAndParent at hnotfoundA ⊢
      have hBf : stB.db.folders = stA.db.folders ++
          (⟨stA.db.nextId, bf.name, mp, bf.emoji, bf.color, now, now⟩ :: Δr) := by
        rw [hext, hA1]
        simp
      rw [hBf, find?_append_right _ _ _ hnotfoundA,
        List.find?_cons_of_pos _ (by simp)]
    unfold restoreFolderStep2
    simp only [hfoundB]
    rw [if_pos (show (!false) = true from rfl), hA1, hmap]

theorem restoreFolderStep_replay (now now2 : Nat) (stA stA1 stB : RestoreSt)
    (bf : BackupFolder) (Δr : List Folder)
    (h : restoreFolderStep false now stA bf = .ok stA1)
    (hmap : stB.map = stA.map)
    (hext : stB.db.folders = stA1.db.folders ++ Δr) :
    restoreFolderStep false now2 stB bf = .ok { stB with map := stA1.map } := by
  unfold restoreFolderStep at h ⊢
  split at h
  · rw [hmap]
    split at h
    · cases h
    · exact restoreFolderStep2_replay now now2 stA stA1 stB bf _ Δr h hmap hext
  · exact restoreFolderStep2_replay now now2 stA stA1 stB bf none Δr h hmap hext

/-- Replaying the whole `overwrite = false` folder phase against any
store that extends its final folder table: every folder is skipped, no
row is written, no count incremented, and the same id map is rebuilt. -/
theorem foldF_replay (now now2 : Nat) :
    ∀ (bfs : List BackupFolder) (stA stA' : RestoreSt),
      foldSteps (restoreFolderStep false now) stA bfs = .ok stA' →
      ∀ (stB : RestoreSt) (Δ : List Folder),
        stB.map = stA.map →
        stB.db.folders = stA'.db.folders ++ Δ →
        foldSteps (restoreFolderStep false now2) stB bfs =
          .ok { stB with map := stA'.map } := by
  intro bfs
  induction bfs with
  | nil =>
    intro stA stA' h stB Δ hmap hext
    have hA : stA = stA' := Except.ok.inj h
    show Except.ok stB = .ok { stB with map := stA'.map }
    rw [← hA, ← hmap]
  | cons bf bfs ih =>
    intro stA stA' h stB Δ hmap hext
    rw [foldSteps_cons] at h
    split at h
    · cases h
    · rename_i stA1 hstepA
      obtain ⟨_, Δ2, hf2⟩ := foldF_false_append now bfs stA1 stA' h
      have hextB : stB.db.folders = stA1.db.folders ++ (Δ2 ++ Δ) := by
        rw [hext, hf2, List.append_assoc]
      have hstepB := restoreFolderStep_replay now now2 stA stA1 stB bf _
        hstepA hmap hextB
      have hnext := ih stA1 stA' h { stB with map := stA1.map } Δ rfl
        (by rw [hext])
      rw [foldSteps_cons, hstepB]
      exact hnext

/-- Replaying one `overwrite = false` prompt iteration against a store
whose prompt table extends the iteration's post-state: the title is
found live, so the iteration skips and changes nothing. -/
theorem restorePromptStep_replay (now now2 : Nat) (stA stA1 stB : RestoreSt)
    (bp : BackupPrompt)
    (h : restorePromptStep false now stA bp = .ok stA1)
    (hmap : stB.map = stA.map)
    (hext : ∃ Δ, stB.db.prompts = stA1.db.prompts ++ Δ) :
    restorePromptStep false now2 stB bp = .ok stB := by
  have hstep2 : ∀ mf, restorePromptStep2 false now stA bp mf = .ok stA1 →
      restorePromptStep2 false now2 stB bp mf = .ok stB := by
    intro mf h2
    unfold restorePromptStep2 at h2
    split at h2
    · rename_i existing hfoundA
      rw [if_pos (show (!false) = true from rfl)] at h2
      have hA1 : stA1 = stA := (Except.ok.inj h2).symm
      obtain ⟨Δ, hΔ⟩ := hext
      have hmem : existing ∈ stB.db.prompts := by
        rw [hΔ, hA1]
        exact List.mem_append_left _ (List.mem_of_find?_eq_some hfoundA)
      obtain ⟨y, hy⟩ := find?_isSome_of_mem _ hmem (List.find?_some hfoundA)
      unfold restorePromptStep2 findPromptByTitle
      simp only [hy]
      rw [if_pos (show (!false) = true from rfl)]
    · rename_i hnotfoundA
      rw [restorePromptCreate_ok] at h2
      have hA1 : stA1 = { stA with
          db := { stA.db with
            prompts := stA.db.prompts ++
              [⟨stA.db.nextId, bp.title, bp.content, mf, bp.emoji, bp.color,
                bp.url, now, now⟩],
            nextId := stA.db.nextId + 1 }
          importedPrompts := stA.importedPrompts + 1 } :=
        (Except.ok.inj h2).symm
      obtain ⟨Δ, hΔ⟩ := hext
      have hmem : (⟨stA.db.nextId, bp.title, bp.content, mf, bp.emoji,
          bp.color, bp.url, now, now⟩ : Prompt) ∈ stB.db.prompts := by
        rw [hΔ, hA1]
        simp
      obtain ⟨y, hy⟩ := find?_isSome_of_mem
        (fun p => p.title == bp.title) hmem (by simp)
      unfold restorePromptStep2 findPromptByTitle
      simp only [hy]
      rw [if_pos (show (!false) = true from rfl)]
  unfold restorePromptStep at h ⊢
  split at h
  · rw [hmap]
    split at h
    · cases h
    · exact hstep2 _ h
  · exact hstep2 _ h

/-- Replaying the whole `overwrite = false` prompt phase against a store
whose prompt table extends its final state: every prompt is skipped and
the state is returned untouched. -/
theorem foldP_replay (now now2 : Nat) :
    ∀ (bps : List BackupPrompt) (stA stA' : RestoreSt),
      foldSteps (restorePromptStep false now) stA bps = .ok stA' →
      ∀ (stB : RestoreSt),
        stB.map = stA.map →
        (∃ Δ, stB.db.prompts = stA'.db.prompts ++ Δ) →
        foldSteps (restorePromptStep false now2) stB bps = .ok stB := by
  intro bps
  induction bps with
  | nil => intro stA stA' h stB _ _; rfl
  | cons bp bps ih =>
    intro stA stA' h stB hmap hext
    rw [foldSteps_cons] at h
    split at h
    · cases h
    · rename_i stA1 hstepA
      obtain ⟨_, _, Δ2, hp2⟩ := foldP_false_append now bps stA1 stA' h
      obtain ⟨Δ, hΔ⟩ := hext
      have hextB : ∃ Δ3, stB.db.prompts = stA1.db.prompts ++ Δ3 :=
        ⟨Δ2 ++ Δ, by rw [hΔ, hp2, List.append_assoc]⟩
      have hstepB := restorePromptStep_replay now now2 stA stA1 stB bp
        hstepA hmap hextB
      have hmap1 : stB.map = stA1.map := by
        rw [hmap, restorePromptStep_map false now stA stA1 bp hstepA]
      rw [foldSteps_cons, hstepB]
      exact ih stA1 stA' h stB hmap1 ⟨Δ, hΔ⟩

/-- **C7.** Restoring the same snapshot twice with `overwrite = false`
is an idempotent merge: if the first run succeeds, the second run
succeeds, skips every folder (matched by `(name, resolved-parent)`) and
every prompt (matched by title), reports `(0, 0)` created entities, and
returns the store exactly as the first run left it — so the total entity
counts after the second run equal those after the first. -/
theorem restoreBackup_idempotent (db : DB) (F : List BackupFolder)
    (P : List BackupPrompt) (now now2 : Nat) (c : Nat × Nat) (db1 : DB)
    (hok : restoreBackup db F P false now = .ok (c, db1)) :
    restoreBackup db1 F P false now2 = .ok ((0, 0), db1) := by
  unfold restoreBackup at hok
  split at hok
  · cases hok
  · rename_i st1 hphase1
    split at hok
    · cases hok
    · rename_i st2 hphase2
      have hdb1 : db1 = st2.db := (Prod.mk.inj (Except.ok.inj hok)).2.symm
      obtain ⟨hm2, hf2, Δp, hp2⟩ := foldP_false_append now P st1 st2 hphase2
      -- replay phase 1 against db1
      have hrep1 : restoreFoldersPhase db1 F false now2 =
          .ok ⟨st1.map, db1, 0, 0⟩ := by
        unfold restoreFoldersPhase at hphase1 ⊢
        exact foldF_replay now now2 _ ⟨[], db, 0, 0⟩ st1 hphase1
          ⟨[], db1, 0, 0⟩ [] rfl (by rw [hdb1, ← hf2]; simp)
      -- replay phase 2
      have hrep2 : foldSteps (restorePromptStep false now2)
          ⟨st1.map, db1, 0, 0⟩ P = .ok ⟨st1.map, db1, 0, 0⟩ := by
        refine foldP_replay now now2 P st1 st2 hphase2 ⟨st1.map, db1, 0, 0⟩ rfl
          ⟨[], ?_⟩
        rw [hdb1]
        simp
      unfold restoreBackup
      rw [hrep1]
      show (match foldSteps (restorePromptStep false now2)
          (⟨st1.map, db1, 0, 0⟩ : RestoreSt) P with
        | .error e => (.error e : Except MCPError ((Nat × Nat) × DB))
        | .ok st2 =>
          .ok ((st2.importedFolders, st2.importedPrompts), st2.db)) =
        .ok ((0, 0), db1)
      rw [hrep2]

theorem restoreBackup_idempotent_witness :
    restoreBackup
      (applyRestore ⟨[], [], 50⟩
        [⟨10, "A", none, none, none⟩, ⟨11, "B", some 10, none, none⟩]
        [⟨"P", "c", some 11, none, none, none⟩] false 5)
      [⟨10, "A", none, none, none⟩, ⟨11, "B", some 10, none, none⟩]
      [⟨"P", "c", some 11, none, none, none⟩] false 6 =
      .ok ((0, 0),
        applyRestore ⟨[], [], 50⟩
          [⟨10, "A", none, none, none⟩, ⟨11, "B", some 10, none, none⟩]
          [⟨"P", "c", some 11, none, none, none⟩] false 5) :=
  restoreBackup_idempotent ⟨[], [], 50⟩
    [⟨10, "A", none, none, none⟩, ⟨11, "B", some 10, none, none⟩]
    [⟨"P", "c", some 11, none, none, none⟩] 5 6 (2, 1)
    (applyRestore ⟨[], [], 50⟩
      [⟨10, "A", none, none, none⟩, ⟨11, "B", some 10, none, none⟩]
      [⟨"P", "c", some 11, none, none, none⟩] false 5) rfl

/-- **C10.** `createPrompt` imposes no uniqueness on titles: two
consecutive calls with the same title (against a store where the
referenced folders, if any, exist) both succeed, return distinct ids,
and leave two more same-titled prompts in the store; and a `createPrompt`
call fails exactly when its non-null `folderId` references a missing
folder — the only checked precondition. -/
theorem createPrompt_no_title_uniqueness (db : DB) (d1 d2 : PromptData)
    (now1 now2 : Nat)
    (h1 : ∀ f, d1.folderId = some f → folderExists db f = true)
    (h2 : ∀ f, d2.folderId = some f → folderExists db f = true) :
    ∃ id1 db1 id2 db2,
      createPrompt db d1 now1 = .ok (id1, db1) ∧
      createPrompt db1 d2 now2 = .ok (id2, db2) ∧
      id1 ≠ id2 ∧
      db2.folders = db.folders ∧
      (d2.title = d1.title →
        (db2.prompts.filter (fun p => p.title == d1.title)).length =
          (db.prompts.filter (fun p => p.title == d1.title)).length + 2) ∧
      (∀ d : PromptData, ∀ nw : Nat,
        (∃ e, createPrompt db d nw = .error e) ↔
          (∃ f, d.folderId = some f ∧ folderExists db f = false)) := by
  have hchk1 : (d1.folderId.isSome && !(folderExists db (d1.folderId.getD 0))) = false := by
    cases hd : d1.folderId with
    | none => simp
    | some f => simp [h1 f hd]
  have hchk2 : (d2.folderId.isSome && !(folderExists db (d2.folderId.getD 0))) = false := by
    cases hd : d2.folderId with
    | none => simp
    | some f => simp [h2 f hd]
  refine ⟨db.nextId,
    { db with
      prompts := db.prompts ++
        [⟨db.nextId, d1.title, d1.content, d1.folderId, d1.emoji, d1.color,
          d1.url, now1, now1⟩],
      nextId := db.nextId + 1 },
    db.nextId + 1,
    { db with
      prompts := (db.prompts ++
        [⟨db.nextId, d1.title, d1.content, d1.folderId, d1.emoji, d1.color,
          d1.url, now1, now1⟩]) ++
        [⟨db.nextId + 1, d2.title, d2.content, d2.folderId, d2.emoji, d2.color,
          d2.url, now2, now2⟩],
      nextId := db.nextId + 1 + 1 },
    ?_, ?_, ?_, ?_, ?_, ?_⟩
  · simp [createPrompt, hchk1, promptExists]
  · have hchk2' : ((d2.folderId.isSome &&
        !(folderExists
          { db with
            prompts := db.prompts ++
              [⟨db.nextId, d1.title, d1.content, d1.folderId, d1.emoji,
                d1.color, d1.url, now1, now1⟩],
            nextId := db.nextId + 1 } (d2.folderId.getD 0))) = false) := hchk2
    simp [createPrompt, hchk2', promptExists]
  · omega
  · rfl
  · intro ht
    simp [List.filter_append, ht]
  · intro d nw
    constructor
    · rintro ⟨e, he⟩
      cases hd : d.folderId with
      | none =>
        rw [show (createPrompt db d nw = .error e) =
            (createPrompt db d nw = .error e) from rfl] at he
        simp [createPrompt, hd, promptExists] at he
      | some f =>
        refine ⟨f, rfl, ?_⟩
        by_contra hex
        have hex' : folderExists db f = true := by
          cases h : folderExists db f
          · exact absurd h hex
          · rfl
        simp [createPrompt, hd, hex', promptExists] at he
    · rintro ⟨f, hf, hex⟩
      exact ⟨⟨ErrorCode.FOLDER_NOT_FOUND, "Folder does not exist"⟩,
        by simp [createPrompt, hf, hex]⟩

theorem createPrompt_no_title_uniqueness_witness :
    ∃ id1 db1 id2 db2,
      createPrompt ⟨[], [], 0⟩ ⟨"T", "c", none, none, none, none⟩ 0 =
        .ok (id1, db1) ∧
      createPrompt db1 ⟨"T", "d", none, none, none, none⟩ 1 = .ok (id2, db2) ∧
      id1 ≠ id2 ∧
      db2.folders = ([] : List Folder) ∧
      (("T" : String) = "T" →
        (db2.prompts.filter (fun p => p.title == "T")).length =
          (([] : List Prompt).filter (fun p => p.title == "T")).length + 2) ∧
      (∀ d : PromptData, ∀ nw : Nat,
        (∃ e, createPrompt ⟨[], [], 0⟩ d nw = .error e) ↔
          (∃ f, d.folderId = some f ∧ folderExists ⟨[], [], 0⟩ f = false)) :=
  createPrompt_no_title_uniqueness ⟨[], [], 0⟩
    ⟨"T", "c", none, none, none, none⟩ ⟨"T", "d", none, none, none, none⟩ 0 1
    (fun f hf => by simp at hf) (fun f hf => by simp at hf)

/-- **C8.** `updatePrompt` applies exactly the fields present in the
change-set and leaves everything else untouched: on success the folders
table, the prompt count, every row's position, id and `createdAt` are
preserved; rows with a different id are unchanged; the targeted row's
fields equal the requested value where present and the old value where
absent; if a success returns `db'` for an empty change-set then
`db' = db`; and — proven outright, not assumed — whenever the prompt
exists, an update whose change-set contains zero fields *succeeds*,
returning the store entirely unchanged (even timestamps). -/
theorem updatePrompt_partial_update (db : DB) (id : Nat)
    (d : PromptUpdate) (now : Nat) :
    (∀ db', updatePrompt db id d now = .ok db' →
      db'.folders = db.folders ∧
      db'.prompts.length = db.prompts.length ∧
      (∀ i (hi : i < db.prompts.length) (hi' : i < db'.prompts.length),
        (db'.prompts[i].id = db.prompts[i].id ∧
         db'.prompts[i].createdAt = db.prompts[i].createdAt) ∧
        (db.prompts[i].id ≠ id → db'.prompts[i] = db.prompts[i]) ∧
        (db.prompts[i].id = id → d.isEmpty = false →
          db'.prompts[i].title = d.title.getD db.prompts[i].title ∧
          db'.prompts[i].content = d.content.getD db.prompts[i].content ∧
          db'.prompts[i].folderId = d.folderId.getD db.prompts[i].folderId ∧
          db'.prompts[i].emoji = d.emoji.getD db.prompts[i].emoji ∧
          db'.prompts[i].color = d.color.getD db.prompts[i].color ∧
          db'.prompts[i].url = d.url.getD db.prompts[i].url ∧
          db'.prompts[i].updatedAt = now)) ∧
      (d.isEmpty = true → db' = db)) ∧
    (promptExists db id = true → d.isEmpty = true →
      updatePrompt db id d now = .ok db) := by
  have hempty : promptExists db id = true → d.isEmpty = true →
      updatePrompt db id d now = Except.ok db := by
    intro hex hemp
    have hfid : d.folderId = none := by
      cases hf : d.folderId with
      | none => rfl
      | some x => simp [PromptUpdate.isEmpty, hf] at hemp
    simp [updatePrompt, hex, hfid, hemp]
  refine ⟨?_, hempty⟩
  intro db' hok
  have hex : promptExists db id = true := by
    by_contra h
    have h' : promptExists db id = false := by
      cases hh : promptExists db id
      · rfl
      · exact absurd hh h
    simp [updatePrompt, h'] at hok
  have hfol : (match d.folderId with
      | some (some f) => !folderExists db f
      | _ => false) = false := by
    by_contra h
    have h' : (match d.folderId with
        | some (some f) => !folderExists db f
        | _ => false) = true := by
      cases hh : (match d.folderId with
          | some (some f) => !folderExists db f
          | _ => false)
      · exact absurd hh h
      · rfl
    simp [updatePrompt, hex, h'] at hok
  by_cases hemp : d.isEmpty = true
  · have hdb : db' = db := by
      simp [updatePrompt, hex, hfol, hemp] at hok
      exact hok.symm
    subst hdb
    refine ⟨rfl, rfl, ?_, fun _ => rfl⟩
    intro i hi hi'
    exact ⟨⟨rfl, rfl⟩, fun _ => rfl, fun _ hne => by simp [hemp] at hne⟩
  · have hempf : d.isEmpty = false := by
      cases hh : d.isEmpty
      · rfl
      · exact absurd hh hemp
    have hver : promptExists { db with prompts := updatedPrompts db id d now }
        id = true := by
      rcases List.any_eq_true.1 hex with ⟨p, hpm, hpid⟩
      refine List.any_eq_true.2 ⟨if p.id == id then applyPromptUpdate d now p else p,
        List.mem_map_of_mem _ hpm, ?_⟩
      simp only [hpid, if_pos rfl]
      have : (applyPromptUpdate d now p).id = p.id := rfl
      simpa [this] using hpid
    have hdb : db' = { db with prompts := updatedPrompts db id d now } := by
      simp [updatePrompt, hex, hfol, hempf, hver] at hok
      exact hok.symm
    subst hdb
    refine ⟨rfl, by simp [updatedPrompts], ?_,
      fun h => by rw [h] at hempf; cases hempf⟩
    intro i hi hi'
    simp only [updatedPrompts, List.getElem_map]
    by_cases hid : db.prompts[i].id = id
    · have hbeq : (db.prompts[i].id == id) = true := by simp [hid]
      simp only [hbeq, if_true]
      exact ⟨⟨rfl, rfl⟩, fun h => absurd hid h,
        fun _ _ => ⟨rfl, rfl, rfl, rfl, rfl, rfl, rfl⟩⟩
    · have hbeq : (db.prompts[i].id == id) = false := by simp [hid]
      simp only [hbeq, if_false]
      exact ⟨⟨rfl, rfl⟩, fun _ => rfl, fun h _ => absurd h hid⟩

theorem updatePrompt_partial_update_witness :
    ((⟨[], [⟨5, "X", "c", none, none, none, none, 1, 9⟩], 10⟩ : DB).folders =
        (⟨[], [⟨5, "T", "c", none, none, none, none, 1, 1⟩], 10⟩ : DB).folders ∧
    (⟨[], [⟨5, "X", "c", none, none, none, none, 1, 9⟩], 10⟩ : DB).prompts.length =
      (⟨[], [⟨5, "T", "c", none, none, none, none, 1, 1⟩], 10⟩ : DB).prompts.length ∧
    (∀ i (hi : i < (⟨[], [⟨5, "T", "c", none, none, none, none, 1, 1⟩], 10⟩ : DB).prompts.length)
        (hi' : i < (⟨[], [⟨5, "X", "c", none, none, none, none, 1, 9⟩], 10⟩ : DB).prompts.length),
      ((⟨[], [⟨5, "X", "c", none, none, none, none, 1, 9⟩], 10⟩ : DB).prompts[i].id =
          (⟨[], [⟨5, "T", "c", none, none, none, none, 1, 1⟩], 10⟩ : DB).prompts[i].id ∧
       (⟨[], [⟨5, "X", "c", none, none, none, none, 1, 9⟩], 10⟩ : DB).prompts[i].createdAt =
          (⟨[], [⟨5, "T", "c", none, none, none, none, 1, 1⟩], 10⟩ : DB).prompts[i].createdAt) ∧
      ((⟨[], [⟨5, "T", "c", none, none, none, none, 1, 1⟩], 10⟩ : DB).prompts[i].id ≠ 5 →
        (⟨[], [⟨5, "X", "c", none, none, none, none, 1, 9⟩], 10⟩ : DB).prompts[i] =
          (⟨[], [⟨5, "T", "c", none, none, none, none, 1, 1⟩], 10⟩ : DB).prompts[i]) ∧
      ((⟨[], [⟨5, "T", "c", none, none, none, none, 1, 1⟩], 10⟩ : DB).prompts[i].id = 5 →
        PromptUpdate.isEmpty ⟨some "X", none, none, none, none, none⟩ = false →
        (⟨[], [⟨5, "X", "c", none, none, none, none, 1, 9⟩], 10⟩ : DB).prompts[i].title =
          (some "X").getD (⟨[], [⟨5, "T", "c", none, none, none, none, 1, 1⟩], 10⟩ : DB).prompts[i].title ∧
        (⟨[], [⟨5, "X", "c", none, none, none, none, 1, 9⟩], 10⟩ : DB).prompts[i].content =
          (none : Option String).getD (⟨[], [⟨5, "T", "c", none, none, none, none, 1, 1⟩], 10⟩ : DB).prompts[i].content ∧
        (⟨[], [⟨5, "X", "c", none, none, none, none, 1, 9⟩], 10⟩ : DB).prompts[i].folderId =
          (none : Option (Option Nat)).getD (⟨[], [⟨5, "T", "c", none, none, none, none, 1, 1⟩], 10⟩ : DB).prompts[i].folderId ∧
        (⟨[], [⟨5, "X", "c", none, none, none, none, 1, 9⟩], 10⟩ : DB).prompts[i].emoji =
          (none : Option (Option String)).getD (⟨[], [⟨5, "T", "c", none, none, none, none, 1, 1⟩], 10⟩ : DB).prompts[i].emoji ∧
        (⟨[], [⟨5, "X", "c", none, none, none, none, 1, 9⟩], 10⟩ : DB).prompts[i].color =
          (none : Option (Option String)).getD (⟨[], [⟨5, "T", "c", none, none, none, none, 1, 1⟩], 10⟩ : DB).prompts[i].color ∧
        (⟨[], [⟨5, "X", "c", none, none, none, none, 1, 9⟩], 10⟩ : DB).prompts[i].url =
          (none : Option (Option String)).getD (⟨[], [⟨5, "T", "c", none, none, none, none, 1, 1⟩], 10⟩ : DB).prompts[i].url ∧
        (⟨[], [⟨5, "X", "c", none, none, none, none, 1, 9⟩], 10⟩ : DB).prompts[i].updatedAt = 9)) ∧
    (PromptUpdate.isEmpty ⟨some "X", none, none, none, none, none⟩ = true →
      (⟨[], [⟨5, "X", "c", none, none, none, none, 1, 9⟩], 10⟩ : DB) =
        ⟨[], [⟨5, "T", "c", none, none, none, none, 1, 1⟩], 10⟩)) ∧
    updatePrompt ⟨[], [⟨5, "T", "c", none, none, none, none, 1, 1⟩], 10⟩ 5
        ⟨none, none, none, none, none, none⟩ 9 =
      .ok ⟨[], [⟨5, "T", "c", none, none, none, none, 1, 1⟩], 10⟩ :=
  ⟨(updatePrompt_partial_update
      ⟨[], [⟨5, "T", "c", none, none, none, none, 1, 1⟩], 10⟩ 5
      ⟨some "X", none, none, none, none, none⟩ 9).1
      ⟨[], [⟨5, "X", "c", none, none, none, none, 1, 9⟩], 10⟩ rfl,
    (updatePrompt_partial_update
      ⟨[], [⟨5, "T", "c", none, none, none, none, 1, 1⟩], 10⟩ 5
      ⟨none, none, none, none, none, none⟩ 9).2 rfl rfl⟩

end Prompteka
